import Mathlib

/-!
# ADS-B / Mode S decoder: shallow embedding and verified properties

The development embeds the two Go packages of the repository,

* `src/processing/adsbdecoder/adsbdecoder.go` (namespace `adsbdecoder`) and
* `src/decoder/deocder.go` (namespace `deocder`),

together with the small part of the Go standard library they call
(`encoding/hex`, `strconv.ParseInt`, the `%08b` and `%X` verbs of `fmt`,
`strings.Builder.WriteRune`, string slicing).

Conventions.

* A Go `string` is a sequence of bytes: `GoString = List Nat`, every byte a
  natural number below 256.  `ascii` turns a Lean literal into its bytes.
* `int64` values are `Int`; the only place where 64-bit overflow can occur is
  `strconv.ParseUint`, which is modelled with explicit reductions `% 2 ^ 64`.
* A Go function returning `(T, error)` returns `Except Fault T`.  A `Fault` is
  either a returned error value or the run-time panic raised by a slice
  expression whose bounds are out of range.
* Output on standard output (`fmt.Println`) is not part of the model.
* A `float64` is a value of `Float64`: a finite number, an infinity or NaN,
  with the comparisons of IEEE 754.  Only the comparisons and `math.Abs` are
  modelled, which are exact; the rounded arithmetic of
  `calculateLongtitudeZoneNumber` (`math.Cos`, `math.Pow`, `math.Acos`, the
  quotient, `math.Floor`) is a parameter of its embedding.
-/

namespace ADSB

/-! ## Go strings, errors and slices -/

/-- A Go string: its sequence of bytes. -/
abbrev GoString := List Nat

/-- The bytes of an ASCII literal. -/
def ascii (s : String) : GoString := s.toList.map Char.toNat

/-- Error values built by the standard library and by the decoders.
`wrap msg cause` is `fmt.Errorf(msg + ": %w", cause)`. -/
inductive GoError where
  | hexInvalidByte (b : Nat)
  | hexErrLength
  | bitCount (got expected : Nat)
  | not112Bits
  | numSyntax
  | numRange
  | wrap (msg : String) (cause : GoError)
  deriving DecidableEq

/-- The two ways in which a call does not produce its value: it returns a
non-nil `error`, or a slice expression is out of range and the run time
raises a fault. -/
inductive Fault where
  | err (e : GoError)
  | sliceBounds
  deriving DecidableEq

/-- The Go slice expression `s[lo:hi]` on a string. -/
def slice (s : GoString) (lo hi : Nat) : Except Fault GoString :=
  if lo ≤ hi ∧ hi ≤ s.length then .ok ((s.take hi).drop lo) else .error .sliceBounds

/-- The Go slice expression `s[:hi]`. -/
def sliceTo (s : GoString) (hi : Nat) : Except Fault GoString := slice s 0 hi

/-- The Go slice expression `s[lo:]`. -/
def sliceFrom (s : GoString) (lo : Nat) : Except Fault GoString := slice s lo s.length

/-! ## `encoding/hex` -/

/-- The value of one hexadecimal digit, `none` for any other byte
(`encoding/hex`, the reverse table of `hex.Decode`). -/
def fromHexChar (c : Nat) : Option Nat :=
  if 48 ≤ c ∧ c ≤ 57 then some (c - 48)
  else if 97 ≤ c ∧ c ≤ 102 then some (c - 97 + 10)
  else if 65 ≤ c ∧ c ≤ 70 then some (c - 65 + 10)
  else none

/-- Function `hex.DecodeString`: the bytes are read in pairs from the left; the first
invalid byte gives `InvalidByteError`; an odd length gives `ErrLength` once
all complete pairs and the last byte have been found valid. -/
def hexDecodeString : GoString → Except GoError (List Nat)
  | [] => .ok []
  | [p] =>
    match fromHexChar p with
    | none => .error (.hexInvalidByte p)
    | some _ => .error .hexErrLength
  | p :: q :: rest =>
    match fromHexChar p with
    | none => .error (.hexInvalidByte p)
    | some a =>
      match fromHexChar q with
      | none => .error (.hexInvalidByte q)
      | some b =>
        match hexDecodeString rest with
        | .error e => .error e
        | .ok bytes => .ok ((((a <<< 4) % 256) ||| b) :: bytes)

/-! ## `fmt` verbs -/

/-- Binary digits of `n`, most significant first, pushed in front of `acc`. -/
def binaryDigitsAux : Nat → Nat → GoString → GoString
  | 0, _, acc => acc
  | fuel + 1, n, acc =>
    if n < 2 then (48 + n) :: acc
    else binaryDigitsAux fuel (n / 2) ((48 + n % 2) :: acc)

/-- The verb `%b` on a non-negative integer. -/
def formatBinary (n : Nat) : GoString := binaryDigitsAux (n + 1) n []

/-- Left padding with the byte `pad` up to `width` bytes. -/
def padLeft (width pad : Nat) (s : GoString) : GoString :=
  List.replicate (width - s.length) pad ++ s

/-- The call `fmt.Sprintf("%08b", b)` for a byte `b`. -/
def sprintf08b (b : Nat) : GoString := padLeft 8 48 (formatBinary b)

/-- One upper-case hexadecimal digit as a byte. -/
def upperHexDigit (d : Nat) : Nat := if d < 10 then 48 + d else 55 + d

/-- Upper-case hexadecimal digits of `n`, most significant first, in front of `acc`. -/
def upperHexAux : Nat → Nat → GoString → GoString
  | 0, _, acc => acc
  | fuel + 1, n, acc =>
    if n < 16 then upperHexDigit n :: acc
    else upperHexAux fuel (n / 16) (upperHexDigit (n % 16) :: acc)

/-- The call `fmt.Sprintf("%X", v)` for an `int64` value `v`: no padding, a
minus sign in front of the digits of the absolute value when `v < 0`. -/
def sprintfX (v : Int) : GoString :=
  if v < 0 then 45 :: upperHexAux (v.natAbs + 1) v.natAbs []
  else upperHexAux (v.natAbs + 1) v.natAbs []

/-! ## `strconv.ParseInt(s, 2, 64)` -/

/-- The helper `lower` of `strconv`: `c | ('x' - 'X')`. -/
def lower (c : Nat) : Nat := c ||| 32

/-- The digit loop of `strconv.ParseUint(s, base, 64)` for `2 ≤ base ≤ 36`,
`base ≠ 10, 16` (so that underscores are never accepted and the cutoff is
`maxUint64 / base + 1`). -/
def parseUintLoop (base : Nat) : GoString → Nat → Except GoError Nat
  | [], n => .ok n
  | c :: cs, n =>
    let digit : Option Nat :=
      if 48 ≤ c ∧ c ≤ 57 then some (c - 48)
      else if 97 ≤ lower c ∧ lower c ≤ 122 then some (lower c - 97 + 10)
      else none
    match digit with
    | none => .error .numSyntax
    | some d =>
      if d ≥ base then .error .numSyntax
      else if n ≥ (2 ^ 64 - 1) / base + 1 then .error .numRange
      else
        let m := (n * base) % 2 ^ 64
        let n1 := (m + d) % 2 ^ 64
        if n1 < m ∨ n1 > 2 ^ 64 - 1 then .error .numRange
        else parseUintLoop base cs n1

/-- Function `strconv.ParseUint(s, base, 64)`. -/
def ParseUint (s : GoString) (base : Nat) : Except GoError Nat :=
  if s = [] then .error .numSyntax else parseUintLoop base s 0

/-- Function `strconv.ParseInt(s, base, 64)`: an optional sign, then `ParseUint`, then
the range check against `1 << 63`.  When `ParseUint` reports a range error
it also returns the largest value, which fails the range check here: the
outcome is a range error in either case. -/
def ParseInt (s : GoString) (base : Nat) : Except GoError Int :=
  match s with
  | [] => .error .numSyntax
  | c :: rest =>
    let neg : Bool := c == 45
    let body : GoString := if c = 43 ∨ c = 45 then rest else s
    match ParseUint body base with
    | .error e => .error e
    | .ok un =>
      if !neg ∧ un ≥ 2 ^ 63 then .error .numRange
      else if neg ∧ un > 2 ^ 63 then .error .numRange
      else .ok (if neg then -(un : Int) else (un : Int))

/-! ## `strings.Builder.WriteRune` -/

/-- UTF-8 encoding of a rune, as appended by `WriteRune`. -/
def encodeRune (r : Int) : GoString :=
  let n := r.toNat
  if 0 ≤ r ∧ r < 128 then [n]
  else if 128 ≤ r ∧ r < 2048 then [192 ||| (n >>> 6), 128 ||| (n &&& 63)]
  else if r < 0 ∨ (55296 ≤ r ∧ r ≤ 57343) ∨ 1114111 < r then [239, 191, 189]
  else if r < 65536 then
    [224 ||| (n >>> 12), 128 ||| ((n >>> 6) &&& 63), 128 ||| (n &&& 63)]
  else
    [240 ||| (n >>> 18), 128 ||| ((n >>> 12) &&& 63), 128 ||| ((n >>> 6) &&& 63),
      128 ||| (n &&& 63)]

/-! ## Shared by both packages: the callsign character switch -/

/-- The `switch` of `ProcessAircraftIdentification` (identical in both
packages): `character` starts as the zero rune and is assigned only in the
three listed cases. -/
def callsignCharacter (characterInt : Int) : Int :=
  if 1 ≤ characterInt ∧ characterInt ≤ 26 then characterInt + 64
  else if 48 ≤ characterInt ∧ characterInt ≤ 57 then characterInt
  else if characterInt = 32 then characterInt
  else 0

/-- The loop `for len(binaryString) != 0` of `ProcessAircraftIdentification`
(identical in both packages).  Each round takes `binaryString[:6]`, keeps
`binaryString[6:]`, parses the six bytes in base 2 and writes one rune to the
builder `acc`.  With one to five bytes left, `binaryString[:6]` is out of
range. -/
def callsignLoop : GoString → GoString → Except Fault GoString
  | [], acc => .ok acc
  | c0 :: c1 :: c2 :: c3 :: c4 :: c5 :: rest, acc =>
    match ParseInt [c0, c1, c2, c3, c4, c5] 2 with
    | .error e => .error (.err (.wrap "failed to parse callsign character" e))
    | .ok characterInt =>
      callsignLoop rest (acc ++ encodeRune (callsignCharacter characterInt))
  | _, _ => .error .sliceBounds

/-! ## `float64` values and their comparisons -/

/-- A `float64` value: a finite number (given by the rational it denotes; the
two zeros both denote 0, and no comparison tells them apart), one of the two
infinities, or NaN. -/
inductive Float64 where
  | finite (q : ℚ)
  | posInf
  | negInf
  | nan
  deriving DecidableEq

/-- Function `math.Abs`. -/
def Float64.abs : Float64 → Float64
  | .finite q => .finite |q|
  | .posInf => .posInf
  | .negInf => .posInf
  | .nan => .nan

/-- The comparison `x == y` of two `float64` values: false whenever one of
them is NaN. -/
def Float64.eq : Float64 → Float64 → Bool
  | .finite a, .finite b => decide (a = b)
  | .posInf, .posInf => true
  | .negInf, .negInf => true
  | _, _ => false

/-- The comparison `x > y` of two `float64` values: false whenever one of
them is NaN. -/
def Float64.gt : Float64 → Float64 → Bool
  | .finite a, .finite b => decide (a > b)
  | .posInf, .finite _ => true
  | .posInf, .negInf => true
  | .finite _, .negInf => true
  | _, _ => false

/-! ## Go maps -/

/-- A Go map literal with `int64` keys, as the list of its entries. -/
abbrev GoMap (β : Type) := List (Int × β)

/-- The index expression `m[k]` on a map: the value stored under `k`, or the
zero value of the element type when the key is missing (also when `m` is the
nil map). -/
def mapIndex {β : Type} (zero : β) : GoMap β → Int → β
  | [], _ => zero
  | (key, v) :: rest, k => if k = key then v else mapIndex zero rest k

/-! ## Package `adsbdecoder` (`src/processing/adsbdecoder/adsbdecoder.go`) -/

namespace adsbdecoder

/-- The record `ModeSMessage` of the package. -/
structure ModeSMessage where
  DF : Int
  CA : Int
  ICAO : GoString
  TC : Int
  Callsign : GoString
  RawBits : GoString
  WakeCategory : String
  deriving DecidableEq

/-- Function `HexToBinaryString`: decode the hex string, append `%08b` of every byte,
and require 112 bits. -/
def HexToBinaryString (hexString : GoString) : Except Fault GoString :=
  match hexDecodeString hexString with
  | .error e => .error (.err (.wrap "failed to decode hex string" e))
  | .ok bytes =>
    let binaryString : GoString := bytes.foldl (fun acc b => acc ++ sprintf08b b) []
    if binaryString.length ≠ 112 then .error (.err (.bitCount binaryString.length 112))
    else .ok binaryString

/-- Function `ParseDownlinkFormat`: base-2 value of `binaryString[:5]`. -/
def ParseDownlinkFormat (binaryString : GoString) : Except Fault Int :=
  match sliceTo binaryString 5 with
  | .error f => .error f
  | .ok field =>
    match ParseInt field 2 with
    | .error e => .error (.err (.wrap "failed to parse DF" e))
    | .ok df => .ok df

/-- Function `ParseCapability`: base-2 value of `binaryString[5:8]`. -/
def ParseCapability (binaryString : GoString) : Except Fault Int :=
  match slice binaryString 5 8 with
  | .error f => .error f
  | .ok field =>
    match ParseInt field 2 with
    | .error e => .error (.err (.wrap "failed to parse CA" e))
    | .ok ca => .ok ca

/-- Function `ParseICAOAddress`: base-2 value of `binaryString[8:32]`, printed with `%X`. -/
def ParseICAOAddress (binaryString : GoString) : Except Fault GoString :=
  match slice binaryString 8 32 with
  | .error f => .error f
  | .ok field =>
    match ParseInt field 2 with
    | .error e => .error (.err (.wrap "failed to parse ICAO address" e))
    | .ok icaoAddressInt => .ok (sprintfX icaoAddressInt)

/-- Function `ParseTypeCode`: base-2 value of `binaryString[32:37]`. -/
def ParseTypeCode (binaryString : GoString) : Except Fault Int :=
  match slice binaryString 32 37 with
  | .error f => .error f
  | .ok field =>
    match ParseInt field 2 with
    | .error e => .error (.err (.wrap "failed to parse TC" e))
    | .ok tc => .ok tc

/-- Function `DecodeModeSMessage`: hex to bits, then the four header fields in the
order DF, CA, ICAO, TC; `Callsign` and `WakeCategory` keep their zero value. -/
def DecodeModeSMessage (hexString : GoString) : Except Fault ModeSMessage :=
  match HexToBinaryString hexString with
  | .error (.err e) => .error (.err (.wrap "failed to convert hex to binary" e))
  | .error f => .error f
  | .ok binaryString =>
    match ParseDownlinkFormat binaryString with
    | .error (.err e) => .error (.err (.wrap "failed to parse downlink format" e))
    | .error f => .error f
    | .ok df =>
      match ParseCapability binaryString with
      | .error (.err e) => .error (.err (.wrap "failed to parse capability" e))
      | .error f => .error f
      | .ok ca =>
        match ParseICAOAddress binaryString with
        | .error (.err e) => .error (.err (.wrap "failed to parse ICAO address" e))
        | .error f => .error f
        | .ok icaoAddress =>
          match ParseTypeCode binaryString with
          | .error (.err e) => .error (.err (.wrap "failed to parse type code" e))
          | .error f => .error f
          | .ok tc =>
            .ok { DF := df, CA := ca, ICAO := icaoAddress, TC := tc,
                  Callsign := [], RawBits := binaryString, WakeCategory := "" }

/-- The map literal `wakeVortexCategorylookupTable` of `adsbdecoder`. -/
def wakeVortexCategorylookupTable : GoMap (GoMap String) :=
  [ (2, [ (1, "Surface emergency vehicle"),
          (3, "Surface service vehicle"),
          (4, "Ground obstruction"),
          (5, "Ground obstruction"),
          (6, "Ground obstruction"),
          (7, "Ground obstruction") ]),
    (3, [ (1, "Glider, sailplane"),
          (2, "Lighter-than-air"),
          (3, "Parachutist, skydiver"),
          (4, "Ultralight, hang-glider, paraglider"),
          (5, "Reserved"),
          (6, "Unmanned aerial vehicle"),
          (7, "Space or transatmospheric vehicle") ]),
    (4, [ (1, "Light (less than 7000 kg)"),
          (2, "Medium 1 (between 7000 kg and 34000 kg)"),
          (3, "Medium 2 (between 34000 kg and 136000 kg)"),
          (4, "High vortex aircraft"),
          (5, "Heavy (larger than 136000 kg)"),
          (6, "High performance (>5 g acceleration and high speed (>400 kt))"),
          (7, "Rotorcraft") ]) ]

/-- Function `getWakeTurbulenceCategory`: the two guards, then
`wakeVortexCategorylookupTable[tc][ca]`, where a missing key gives the zero
value (the nil map, then the empty string). -/
def getWakeTurbulenceCategory (tc ca : Int) : String :=
  if tc = 1 then "Reserved"
  else if ca = 0 then "No category information"
  else mapIndex "" (mapIndex [] wakeVortexCategorylookupTable tc) ca

/-- Function `ProcessAircraftIdentification`: the payload `binaryString[32:88]`, its
type code (5 bits) and category (3 bits), the wake category, then the
callsign loop over what is left.  Returns `(callsign, wakeVortexCategory)`. -/
def ProcessAircraftIdentification (binaryString : GoString) :
    Except Fault (GoString × String) :=
  match slice binaryString 32 88 with
  | .error f => .error f
  | .ok payload =>
    match sliceTo payload 5 with
    | .error f => .error f
    | .ok tcBits =>
      match ParseInt tcBits 2 with
      | .error e => .error (.err (.wrap "failed to parse TC" e))
      | .ok tc =>
        match sliceFrom payload 5 with
        | .error f => .error f
        | .ok afterTc =>
          match sliceTo afterTc 3 with
          | .error f => .error f
          | .ok caBits =>
            match ParseInt caBits 2 with
            | .error e => .error (.err (.wrap "failed to parse CA" e))
            | .ok ca =>
              match sliceFrom afterTc 3 with
              | .error f => .error f
              | .ok characters =>
                let wakeVortexCategory := getWakeTurbulenceCategory tc ca
                match callsignLoop characters [] with
                | .error f => .error f
                | .ok callsign => .ok (callsign, wakeVortexCategory)

/-- Function `calculateLongtitudeZoneNumber`: the three cases of the `switch`, then
the formula.  The argument `formula` stands for lines 253-268 as a whole, the
value `int64(math.Floor(nominator / denominator))` computed in `float64` from
the latitude; it is reached only when none of the three cases applies. -/
def calculateLongtitudeZoneNumber (formula : Float64 → Int) (latitude : Float64) : Int :=
  if Float64.eq latitude (.finite 0) then 59
  else if Float64.eq (Float64.abs latitude) (.finite 87) then 2
  else if Float64.gt (Float64.abs latitude) (.finite 87) then 1
  else formula latitude

end adsbdecoder

/-! ## Program `src/decoder/deocder.go` -/

namespace deocder

/-- The record `ModeSMessage` of the program (no `TC` field). -/
structure ModeSMessage where
  DF : Int
  CA : Int
  ICAO : GoString
  Callsign : GoString
  RawBits : GoString
  WakeCategory : String
  deriving DecidableEq

/-- Function `ModeSHexToBin`: decode the hex string and append `%08b` of every byte. -/
def ModeSHexToBin (hexString : GoString) : Except Fault GoString :=
  match hexDecodeString hexString with
  | .error e => .error (.err (.wrap "failed to decode hex string" e))
  | .ok bytes => .ok (bytes.foldl (fun acc b => acc ++ sprintf08b b) [])

/-- The map literal `wakeVortexCategorylookupTable` of `deocder.go`. -/
def wakeVortexCategorylookupTable : GoMap (GoMap String) :=
  [ (1, [ (0, "No category information") ]),
    (2, [ (1, "Surface emergency vehicle"),
          (3, "Surface service vehicle"),
          (4, "Ground obstruction"),
          (5, "Reserved") ]),
    (3, [ (1, "Glider, sailplane"),
          (2, "Lighter-than-air"),
          (3, "Parachutist, skydiver"),
          (4, "Ultralight, hang-glider, paraglider"),
          (5, "Reserved"),
          (6, "Unmanned aerial vehicle"),
          (7, "Space or transatmospheric vehicle") ]),
    (4, [ (1, "Light (less than 7000 kg)"),
          (2, "Medium 1 (between 7000 kg and 34000 kg)"),
          (3, "Medium 2 (between 34000 kg and 136000 kg)"),
          (4, "High vortex aircraft"),
          (5, "Heavy (larger than 136000 kg)"),
          (6, "High performance (>5 g acceleration and high speed (>400 kt))"),
          (7, "Rotorcraft") ]) ]

/-- Function `getWakeTurbulenceCategory` of `deocder.go`: the same guards, its own map. -/
def getWakeTurbulenceCategory (tc ca : Int) : String :=
  if tc = 1 then "Reserved"
  else if ca = 0 then "No category information"
  else mapIndex "" (mapIndex [] wakeVortexCategorylookupTable tc) ca

/-- Function `ProcessAircraftIdentification` of `deocder.go`: the argument is the
payload itself (no `[32:88]` slice). -/
def ProcessAircraftIdentification (binaryString : GoString) :
    Except Fault (GoString × String) :=
  match sliceTo binaryString 5 with
  | .error f => .error f
  | .ok tcBits =>
    match ParseInt tcBits 2 with
    | .error e => .error (.err (.wrap "failed to parse TC" e))
    | .ok tc =>
      match sliceFrom binaryString 5 with
      | .error f => .error f
      | .ok afterTc =>
        match sliceTo afterTc 3 with
        | .error f => .error f
        | .ok caBits =>
          match ParseInt caBits 2 with
          | .error e => .error (.err (.wrap "failed to parse CA" e))
          | .ok ca =>
            match sliceFrom afterTc 3 with
            | .error f => .error f
            | .ok characters =>
              let wakeVortexCategory := getWakeTurbulenceCategory tc ca
              match callsignLoop characters [] with
              | .error f => .error f
              | .ok callsign => .ok (callsign, wakeVortexCategory)

/-- The part of `DecodeModeSMessage` after the ICAO address: the type code
of `rest[:5]` and the dispatch on it.  `rest` is the bit string with the
first 32 bits cut off. -/
def decodePayload (df ca : Int) (icao rawBits rest : GoString) :
    Except Fault ModeSMessage :=
  match sliceTo rest 5 with
  | .error f => .error f
  | .ok tcBits =>
    match ParseInt tcBits 2 with
    | .error e => .error (.err (.wrap "failed to parse TC" e))
    | .ok tc =>
      if 1 ≤ tc ∧ tc ≤ 4 then
        match sliceTo rest 56 with
        | .error f => .error f
        | .ok payload =>
          match ProcessAircraftIdentification payload with
          | .error (.err e) =>
            .error (.err (.wrap "failed to parse Aircraft identification" e))
          | .error f => .error f
          | .ok (callsign, wakeCategory) =>
            match sliceFrom rest 56 with
            | .error f => .error f
            | .ok _ =>
              .ok { DF := df, CA := ca, ICAO := icao, Callsign := callsign,
                    RawBits := rawBits, WakeCategory := wakeCategory }
      else
        match sliceFrom rest 56 with
        | .error f => .error f
        | .ok _ =>
          .ok { DF := df, CA := ca, ICAO := icao, Callsign := [],
                RawBits := rawBits, WakeCategory := "" }

/-- Function `DecodeModeSMessage` of `deocder.go`: a cursor `binaryString` that is cut
after every field. -/
def DecodeModeSMessage (hexString : GoString) : Except Fault ModeSMessage :=
  match ModeSHexToBin hexString with
  | .error (.err e) => .error (.err (.wrap "failed to convert hex to binary" e))
  | .error f => .error f
  | .ok binaryString =>
    if binaryString.length ≠ 112 then .error (.err .not112Bits)
    else
      match sliceTo binaryString 5 with
      | .error f => .error f
      | .ok dfBits =>
        match ParseInt dfBits 2 with
        | .error e => .error (.err (.wrap "failed to parse DF" e))
        | .ok df =>
          match sliceFrom binaryString 5 with
          | .error f => .error f
          | .ok s1 =>
            match sliceTo s1 3 with
            | .error f => .error f
            | .ok caBits =>
              match ParseInt caBits 2 with
              | .error e => .error (.err (.wrap "failed to parse CA" e))
              | .ok ca =>
                match sliceFrom s1 3 with
                | .error f => .error f
                | .ok s2 =>
                  match sliceTo s2 24 with
                  | .error f => .error f
                  | .ok icaoBits =>
                    match ParseInt icaoBits 2 with
                    | .error e => .error (.err (.wrap "failed to parse CA" e))
                    | .ok icao_int =>
                      match sliceFrom s2 24 with
                      | .error f => .error f
                      | .ok s3 => decodePayload df ca (sprintfX icao_int) binaryString s3

end deocder

/-! ## Specification-side vocabulary and definitions used in the proofs -/

/-- A string of the bytes `'0'` and `'1'` only. -/
def IsBitString (s : GoString) : Prop := ∀ c ∈ s, c = 48 ∨ c = 49

instance (s : GoString) : Decidable (IsBitString s) := by
  unfold IsBitString; infer_instance

/-- Unsigned value of a run of bit characters, most significant bit first,
continuing from the value `acc` already read. -/
def bitsValueFrom (acc : Nat) (s : GoString) : Nat :=
  s.foldl (fun v c => 2 * v + (c - 48)) acc

/-- Unsigned value of a run of bit characters, most significant bit first. -/
def bitsValue (s : GoString) : Nat := bitsValueFrom 0 s

/-- The bit-field reader of the specification: the unsigned value of the
`width` bits of `msg` that start at bit `offset`. -/
def bitField (msg : GoString) (offset width : Nat) : Nat :=
  bitsValue ((msg.drop offset).take width)

/-- A hexadecimal digit: `0-9`, `a-f` or `A-F`. -/
def IsHexDigit (c : Nat) : Prop :=
  (48 ≤ c ∧ c ≤ 57) ∨ (97 ≤ c ∧ c ≤ 102) ∨ (65 ≤ c ∧ c ≤ 70)

instance (c : Nat) : Decidable (IsHexDigit c) := by
  unfold IsHexDigit; infer_instance

/-- Value of a hexadecimal digit (0 for any other byte). -/
def hexDigitValue (c : Nat) : Nat :=
  if 48 ≤ c ∧ c ≤ 57 then c - 48
  else if 97 ≤ c ∧ c ≤ 102 then c - 87
  else if 65 ≤ c ∧ c ≤ 70 then c - 55
  else 0

/-- Value of a hexadecimal numeral, most significant digit first. -/
def hexValue (s : GoString) : Nat :=
  s.foldl (fun v c => 16 * v + hexDigitValue c) 0

/-- The bit string that the `+=` loop of `HexToBinaryString` and
`ModeSHexToBin` builds from the decoded bytes. -/
def bitsOfBytes : List Nat → GoString
  | [] => []
  | b :: bs => sprintf08b b ++ bitsOfBytes bs

namespace adsbdecoder

/-- The record that `DecodeModeSMessage` builds from a 112-bit string. -/
def headerRecord (bits : GoString) : ModeSMessage :=
  { DF := (bitField bits 0 5 : Int), CA := (bitField bits 5 3 : Int),
    ICAO := sprintfX (bitField bits 8 24 : Int), TC := (bitField bits 32 5 : Int),
    Callsign := [], RawBits := bits, WakeCategory := "" }

end adsbdecoder

/-- An upper-case hexadecimal digit: `0-9` or `A-F`. -/
def IsUpperHexDigit (c : Nat) : Prop := (48 ≤ c ∧ c ≤ 57) ∨ (65 ≤ c ∧ c ≤ 70)

instance (c : Nat) : Decidable (IsUpperHexDigit c) := by
  unfold IsUpperHexDigit; infer_instance

/-- The string `str` is the upper-case hexadecimal numeral of `n`: it is not
empty, has only the digits `0-9A-F`, has the value `n`, and starts with the
digit `0` only when it is the one-digit numeral `0`. -/
def IsUpperHexNumeral (str : GoString) (n : Nat) : Prop :=
  str ≠ [] ∧ (∀ c ∈ str, IsUpperHexDigit c) ∧ hexValue str = n
    ∧ (str.head? = some 48 → str = [48])

instance (str : GoString) (n : Nat) : Decidable (IsUpperHexNumeral str n) := by
  unfold IsUpperHexNumeral; infer_instance

/-- The byte that one round of the callsign loop writes for the 6-bit value `v`. -/
def callsignByte (v : Nat) : Nat := (callsignCharacter (v : Int)).toNat

/-- The body shared by the two `ProcessAircraftIdentification` functions: it
works on the 56-bit payload and differs only in the wake-category lookup. -/
def identificationBody (wake : Int → Int → String) (payload : GoString) :
    Except Fault (GoString × String) :=
  match sliceTo payload 5 with
  | .error f => .error f
  | .ok tcBits =>
    match ParseInt tcBits 2 with
    | .error e => .error (.err (.wrap "failed to parse TC" e))
    | .ok tc =>
      match sliceFrom payload 5 with
      | .error f => .error f
      | .ok afterTc =>
        match sliceTo afterTc 3 with
        | .error f => .error f
        | .ok caBits =>
          match ParseInt caBits 2 with
          | .error e => .error (.err (.wrap "failed to parse CA" e))
          | .ok ca =>
            match sliceFrom afterTc 3 with
            | .error f => .error f
            | .ok characters =>
              match callsignLoop characters [] with
              | .error f => .error f
              | .ok callsign => .ok (callsign, wake tc ca)

/-- The 112 bits of the reference message `8D4840D6202CC371C32CE0576098`. -/
def referenceBits : GoString :=
  ascii ("10001101010010000100000011010110001000000010110011000011"
    ++ "01110001110000110010110011100000010101110110000010011000")

/-- A row of the static wake-category table of the specification. -/
def IsTableRow (tc ca : Int) : Prop :=
  (tc = 2 ∧ (ca = 1 ∨ ca = 3 ∨ (4 ≤ ca ∧ ca ≤ 7)))
    ∨ (tc = 3 ∧ 1 ≤ ca ∧ ca ≤ 7) ∨ (tc = 4 ∧ 1 ≤ ca ∧ ca ≤ 7)

instance (tc ca : Int) : Decidable (IsTableRow tc ca) := by
  unfold IsTableRow; infer_instance

/-- The callsign loop with a counter of its rounds: the same three cases as
`callsignLoop`, the counter going up by one for every pass of the loop body. -/
def callsignLoopRounds : GoString → GoString → Nat → Except Fault (GoString × Nat)
  | [], acc, rounds => .ok (acc, rounds)
  | c0 :: c1 :: c2 :: c3 :: c4 :: c5 :: rest, acc, rounds =>
    match ParseInt [c0, c1, c2, c3, c4, c5] 2 with
    | .error e => .error (.err (.wrap "failed to parse callsign character" e))
    | .ok characterInt =>
      callsignLoopRounds rest (acc ++ encodeRune (callsignCharacter characterInt)) (rounds + 1)
  | _, _, _ => .error .sliceBounds

/-- The comma-ok form `_, ok := m[k]` of a map index: whether `k` is a key of `m`. -/
def mapHasKey {β : Type} : GoMap β → Int → Bool
  | [], _ => false
  | (key, _) :: rest, k => if k = key then true else mapHasKey rest k

/-- The nested map of `adsbdecoder` has an entry for the pair `(tc, ca)`. -/
def adsbdecoder.tableHasEntry (tc ca : Int) : Bool :=
  mapHasKey adsbdecoder.wakeVortexCategorylookupTable tc
    && mapHasKey (mapIndex [] adsbdecoder.wakeVortexCategorylookupTable tc) ca

/-- ASCII upper-casing of one byte: `a-z` become `A-Z`. -/
def asciiUpperByte (c : Nat) : Nat := if 97 ≤ c ∧ c ≤ 122 then c - 32 else c

/-- ASCII lower-casing of one byte: `A-Z` become `a-z`. -/
def asciiLowerByte (c : Nat) : Nat := if 65 ≤ c ∧ c ≤ 90 then c + 32 else c

/-- The upper-cased string. -/
def asciiUpper (s : GoString) : GoString := s.map asciiUpperByte

/-- The lower-cased string. -/
def asciiLower (s : GoString) : GoString := s.map asciiLowerByte

/-! ## Lemmas on bit strings and `ParseInt` -/

theorem isBitString_nil : IsBitString [] := by
  intro c hc; simp at hc

theorem isBitString_cons {c : Nat} {s : GoString} :
    IsBitString (c :: s) ↔ (c = 48 ∨ c = 49) ∧ IsBitString s := by
  simp [IsBitString]

theorem isBitString_append {s t : GoString} :
    IsBitString (s ++ t) ↔ IsBitString s ∧ IsBitString t := by
  simp only [IsBitString, List.mem_append]
  constructor
  · intro h; exact ⟨fun c hc => h c (Or.inl hc), fun c hc => h c (Or.inr hc)⟩
  · rintro ⟨h1, h2⟩ c (hc | hc)
    · exact h1 c hc
    · exact h2 c hc

theorem IsBitString.take {s : GoString} (h : IsBitString s) (n : Nat) :
    IsBitString (s.take n) := fun c hc => h c (List.mem_of_mem_take hc)

theorem IsBitString.drop {s : GoString} (h : IsBitString s) (n : Nat) :
    IsBitString (s.drop n) := fun c hc => h c (List.mem_of_mem_drop hc)

theorem bitsValueFrom_append (acc : Nat) (s t : GoString) :
    bitsValueFrom acc (s ++ t) = bitsValueFrom (bitsValueFrom acc s) t := by
  simp [bitsValueFrom, List.foldl_append]

theorem bitsValueFrom_eq (acc : Nat) (s : GoString) :
    bitsValueFrom acc s = acc * 2 ^ s.length + bitsValue s := by
  induction s generalizing acc with
  | nil => simp [bitsValueFrom, bitsValue]
  | cons c s ih =>
    have h1 : bitsValueFrom acc (c :: s) = bitsValueFrom (2 * acc + (c - 48)) s := rfl
    have h2 : bitsValue (c :: s) = bitsValueFrom (2 * 0 + (c - 48)) s := rfl
    rw [h1, h2, ih (2 * acc + (c - 48)), ih (2 * 0 + (c - 48))]
    simp only [List.length_cons, pow_succ]
    ring

theorem bitsValue_append (s t : GoString) :
    bitsValue (s ++ t) = bitsValue s * 2 ^ t.length + bitsValue t := by
  unfold bitsValue
  rw [bitsValueFrom_append, bitsValueFrom_eq]
  rfl

theorem bitsValue_lt {s : GoString} (h : IsBitString s) : bitsValue s < 2 ^ s.length := by
  induction s using List.reverseRecOn with
  | nil => simp [bitsValue, bitsValueFrom]
  | append_singleton s c ih =>
    rw [isBitString_append] at h
    have hc : c = 48 ∨ c = 49 := h.2 c (by simp)
    have := ih h.1
    rw [bitsValue_append]
    have h3 : bitsValue [c] = c - 48 := by simp [bitsValue, bitsValueFrom]
    simp only [List.length_append, List.length_singleton, pow_succ, pow_zero, h3]
    rcases hc with rfl | rfl <;> omega

/-- One round of the digit loop of `ParseUint` on a bit character. -/
theorem parseUintLoop_step (c : Nat) (s : GoString) (n : Nat) (hc : c = 48 ∨ c = 49)
    (hn : n < 2 ^ 63) : parseUintLoop 2 (c :: s) n = parseUintLoop 2 s (2 * n + (c - 48)) := by
  rcases hc with rfl | rfl
  · simp only [parseUintLoop]
    rw [if_pos (by decide)]
    simp only []
    rw [if_neg (by decide), if_neg (by omega), if_neg (by omega)]
    congr 1; omega
  · simp only [parseUintLoop]
    rw [if_pos (by decide)]
    simp only []
    rw [if_neg (by decide), if_neg (by omega), if_neg (by omega)]
    congr 1; omega

/-- On bit characters the digit loop of `ParseUint` never fails as long as
the value read so far leaves room for the bits still to come. -/
theorem parseUintLoop_bits (s : GoString) (n : Nat) (h : IsBitString s)
    (hn : (n + 1) * 2 ^ s.length ≤ 2 ^ 64) :
    parseUintLoop 2 s n = .ok (bitsValueFrom n s) := by
  induction s generalizing n with
  | nil => rfl
  | cons c s ih =>
    rw [isBitString_cons] at h
    have hpow : 0 < 2 ^ s.length := Nat.pow_pos (by norm_num)
    simp only [List.length_cons, pow_succ] at hn
    have hn63 : n < 2 ^ 63 := by
      by_contra hcon
      have h1 : 2 ^ 63 + 1 ≤ n + 1 := by omega
      have h2 : (2 ^ 63 + 1) * (2 ^ s.length * 2) ≤ (n + 1) * (2 ^ s.length * 2) :=
        Nat.mul_le_mul_right _ h1
      have h3 : (2 ^ 63 + 1) * (2 ^ s.length * 2) = 2 ^ 64 * 2 ^ s.length + 2 ^ s.length * 2 := by
        ring
      omega
    have hd : c - 48 ≤ 1 := by omega
    have hstep : (2 * n + (c - 48) + 1) * 2 ^ s.length ≤ 2 ^ 64 :=
      calc (2 * n + (c - 48) + 1) * 2 ^ s.length ≤ (2 * n + 2) * 2 ^ s.length :=
            Nat.mul_le_mul_right _ (by omega)
        _ = (n + 1) * (2 ^ s.length * 2) := by ring
        _ ≤ 2 ^ 64 := hn
    rw [parseUintLoop_step c s n h.1 hn63, ih (2 * n + (c - 48)) h.2 hstep]
    rfl

/-- Function `ParseInt` in base 2 on one to 63 bit characters returns their value. -/
theorem parseInt_bits (s : GoString) (h : IsBitString s) (h0 : s ≠ [])
    (hlen : s.length ≤ 63) : ParseInt s 2 = .ok (bitsValue s : Int) := by
  have hlt := bitsValue_lt h
  have hle : 2 ^ s.length ≤ 2 ^ 63 := Nat.pow_le_pow_right (by norm_num) hlen
  have hloop : parseUintLoop 2 s 0 = .ok (bitsValue s) := by
    apply parseUintLoop_bits s 0 h
    have : 2 ^ s.length ≤ 2 ^ 64 := Nat.pow_le_pow_right (by norm_num) (by omega)
    simpa using this
  cases s with
  | nil => exact absurd rfl h0
  | cons c s =>
    have hc : c = 48 ∨ c = 49 := (isBitString_cons.1 h).1
    have hne : ¬ (c = 43 ∨ c = 45) := by omega
    have hneg : (c == 45) = false := by
      rcases hc with rfl | rfl <;> rfl
    simp only [ParseInt, hne, if_false, ParseUint, hneg, hloop]
    simp
    omega

/-! ## Lemmas on `%08b` and `hex.DecodeString` -/

set_option maxRecDepth 100000 in
/-- For a byte, `%08b` gives eight bit characters whose value is the byte. -/
theorem sprintf08b_spec : ∀ b, b < 256 →
    IsBitString (sprintf08b b) ∧ (sprintf08b b).length = 8 ∧ bitsValue (sprintf08b b) = b := by
  decide

set_option maxRecDepth 100000 in
/-- The byte `(a << 4) | b` built from two hexadecimal digit values. -/
theorem hexByte_eq : ∀ a, a < 16 → ∀ b, b < 16 → ((a <<< 4) % 256) ||| b = 16 * a + b := by
  decide

theorem fromHexChar_isSome_iff (c : Nat) : (fromHexChar c).isSome ↔ IsHexDigit c := by
  unfold fromHexChar IsHexDigit
  split_ifs <;> simp <;> omega

theorem fromHexChar_eq_some {c v : Nat} (h : fromHexChar c = some v) :
    IsHexDigit c ∧ v = hexDigitValue c ∧ v < 16 := by
  unfold fromHexChar at h
  unfold IsHexDigit hexDigitValue
  split_ifs at h with h1 h2 h3 <;> simp at h <;> subst h
  · simp [h1]; omega
  · rw [if_neg h1, if_pos h2]; omega
  · rw [if_neg h1, if_neg h2, if_pos h3]; omega

theorem fromHexChar_eq_none {c : Nat} (h : fromHexChar c = none) : ¬ IsHexDigit c := by
  rw [← fromHexChar_isSome_iff, h]; simp

theorem foldl_sprintf08b (bytes : List Nat) (acc : GoString) :
    bytes.foldl (fun acc b => acc ++ sprintf08b b) acc = acc ++ bitsOfBytes bytes := by
  induction bytes generalizing acc with
  | nil => simp [bitsOfBytes]
  | cons b bs ih => simp [bitsOfBytes, ih]

theorem hexValue_cons_cons (p q : Nat) (rest : GoString) :
    hexValue (p :: q :: rest)
      = (16 * hexDigitValue p + hexDigitValue q) * 16 ^ rest.length + hexValue rest := by
  have gen : ∀ (s : GoString) (acc : Nat),
      s.foldl (fun v c => 16 * v + hexDigitValue c) acc
        = acc * 16 ^ s.length + s.foldl (fun v c => 16 * v + hexDigitValue c) 0 := by
    intro s
    induction s with
    | nil => intro acc; simp
    | cons c s ih =>
      intro acc
      simp only [List.foldl_cons, List.length_cons, pow_succ]
      rw [ih (16 * acc + hexDigitValue c), ih (16 * 0 + hexDigitValue c)]
      ring
  unfold hexValue
  simp only [List.foldl_cons]
  rw [gen rest]
  ring

/-- What `hex.DecodeString` accepts: exactly the strings of an even number of
hexadecimal digits. -/
theorem hexDecodeString_isOk_iff (s : GoString) :
    (∃ bytes, hexDecodeString s = .ok bytes) ↔ (∀ c ∈ s, IsHexDigit c) ∧ s.length % 2 = 0 := by
  induction s using hexDecodeString.induct with
  | case1 => simp [hexDecodeString]
  | case2 p h => simp [hexDecodeString, h]
  | case3 p x h => simp [hexDecodeString, h]
  | case4 p q rest h =>
    have := fromHexChar_eq_none h
    simp [hexDecodeString, h, this]
  | case5 p q rest a ha hb =>
    have := fromHexChar_eq_none hb
    simp [hexDecodeString, ha, hb, this]
  | case6 p q rest a ha b hb e he ih =>
    have h1 := (fromHexChar_eq_some ha).1
    have h2 := (fromHexChar_eq_some hb).1
    rw [he] at ih
    simp only [hexDecodeString, ha, hb, he]
    constructor
    · rintro ⟨_, h⟩; cases h
    · intro hcon
      have hlen := hcon.2
      simp only [List.length_cons] at hlen
      obtain ⟨_, h⟩ := ih.2 ⟨fun c hc => hcon.1 c (by simp [hc]), by omega⟩
      cases h
  | case7 p q rest a ha b hb bytes he ih =>
    have h1 := (fromHexChar_eq_some ha).1
    have h2 := (fromHexChar_eq_some hb).1
    rw [he] at ih
    have ih := ih.1 ⟨bytes, rfl⟩
    simp only [hexDecodeString, ha, hb, he]
    refine ⟨fun _ => ⟨?_, ?_⟩, fun _ => ⟨_, rfl⟩⟩
    · intro c hc
      simp only [List.mem_cons] at hc
      rcases hc with rfl | rfl | hc
      · exact h1
      · exact h2
      · exact ih.1 c hc
    · simp only [List.length_cons]; omega

/-- The bits built from the decoded bytes: four per hexadecimal digit, with
the value of the numeral. -/
theorem hexDecodeString_bits (s : GoString) (bytes : List Nat)
    (h : hexDecodeString s = .ok bytes) :
    IsBitString (bitsOfBytes bytes) ∧ (bitsOfBytes bytes).length = 4 * s.length
      ∧ bitsValue (bitsOfBytes bytes) = hexValue s := by
  induction s using hexDecodeString.induct generalizing bytes with
  | case1 =>
    simp only [hexDecodeString, Except.ok.injEq] at h
    subst h
    exact ⟨isBitString_nil, rfl, rfl⟩
  | case2 p hp => simp [hexDecodeString, hp] at h
  | case3 p x hp => simp [hexDecodeString, hp] at h
  | case4 p q rest hp => simp [hexDecodeString, hp] at h
  | case5 p q rest a ha hb => simp [hexDecodeString, ha, hb] at h
  | case6 p q rest a ha b hb e he ih => simp [hexDecodeString, ha, hb, he] at h
  | case7 p q rest a ha b hb bs he ih =>
    simp only [hexDecodeString, ha, hb, he, Except.ok.injEq] at h
    subst h
    obtain ⟨_, hva, hla⟩ := fromHexChar_eq_some ha
    obtain ⟨_, hvb, hlb⟩ := fromHexChar_eq_some hb
    obtain ⟨i1, i2, i3⟩ := ih bs he
    have hbyte := hexByte_eq a hla b hlb
    obtain ⟨s1, s2, s3⟩ := sprintf08b_spec (16 * a + b) (by omega)
    rw [hbyte]
    refine ⟨?_, ?_, ?_⟩
    · exact isBitString_append.2 ⟨s1, i1⟩
    · simp only [bitsOfBytes, List.length_append, s2, i2, List.length_cons]; omega
    · simp only [bitsOfBytes]
      rw [bitsValue_append, s3, i3, i2, hexValue_cons_cons, ← hva, ← hvb]
      have : (2 : Nat) ^ (4 * rest.length) = 16 ^ rest.length := by
        rw [pow_mul]; norm_num
      rw [this]

/-! ## Lemmas on slices and bit fields -/

theorem slice_eq_ok (s : GoString) (lo hi : Nat) (h1 : lo ≤ hi) (h2 : hi ≤ s.length) :
    slice s lo hi = .ok ((s.drop lo).take (hi - lo)) := by
  unfold slice
  rw [if_pos ⟨h1, h2⟩, List.drop_take]

theorem slice_eq_error (s : GoString) (lo hi : Nat) (h : ¬ (lo ≤ hi ∧ hi ≤ s.length)) :
    slice s lo hi = .error .sliceBounds := by
  unfold slice
  rw [if_neg h]

theorem sliceTo_eq_ok (s : GoString) (hi : Nat) (h : hi ≤ s.length) :
    sliceTo s hi = .ok (s.take hi) := by
  unfold sliceTo
  rw [slice_eq_ok s 0 hi (Nat.zero_le _) h]
  simp

theorem sliceFrom_eq_ok (s : GoString) (lo : Nat) (h : lo ≤ s.length) :
    sliceFrom s lo = .ok (s.drop lo) := by
  unfold sliceFrom
  rw [slice_eq_ok s lo s.length h le_rfl]
  congr 1
  apply List.take_of_length_le
  simp

/-- Reading a field of one to 63 bits that lies inside a bit string: the
slice exists and `ParseInt` returns the value of the field. -/
theorem parseInt_field (msg : GoString) (offset width : Nat) (h : IsBitString msg)
    (hw : 1 ≤ width) (hw63 : width ≤ 63) (hin : offset + width ≤ msg.length) :
    ParseInt ((msg.drop offset).take width) 2 = .ok (bitField msg offset width : Int) := by
  have hlen : ((msg.drop offset).take width).length = width := by
    simp only [List.length_take, List.length_drop]; omega
  apply parseInt_bits _ ((h.drop offset).take width)
  · intro h0
    rw [h0] at hlen
    simp at hlen
    omega
  · omega

/-- A bit field as a quotient and remainder of the value of the whole string. -/
theorem bitField_eq_div_mod (msg : GoString) (offset width : Nat) (h : IsBitString msg)
    (hin : offset + width ≤ msg.length) :
    bitField msg offset width
      = bitsValue msg / 2 ^ (msg.length - (offset + width)) % 2 ^ width := by
  have e1 : msg = msg.take offset ++ ((msg.drop offset).take width
      ++ (msg.drop offset).drop width) := by
    rw [List.take_append_drop, List.take_append_drop]
  have hl1 : ((msg.drop offset).take width).length = width := by
    simp only [List.length_take, List.length_drop]; omega
  have hl2 : ((msg.drop offset).drop width).length = msg.length - (offset + width) := by
    simp only [List.length_drop]; omega
  have hlt : bitsValue ((msg.drop offset).take width) < 2 ^ width := by
    have := bitsValue_lt ((h.drop offset).take width)
    rwa [hl1] at this
  have hlt2 : bitsValue ((msg.drop offset).drop width) < 2 ^ (msg.length - (offset + width)) := by
    have := bitsValue_lt ((h.drop offset).drop width)
    rwa [hl2] at this
  have e2 : bitsValue msg = (bitsValue (msg.take offset) * 2 ^ width
      + bitsValue ((msg.drop offset).take width)) * 2 ^ (msg.length - (offset + width))
      + bitsValue ((msg.drop offset).drop width) := by
    conv_lhs => rw [e1]
    rw [bitsValue_append, bitsValue_append, List.length_append, hl1, hl2, pow_add]
    ring
  unfold bitField
  rw [e2, Nat.add_comm, Nat.add_mul_div_right _ _ (Nat.pow_pos (by norm_num)),
    Nat.div_eq_of_lt hlt2, Nat.zero_add, Nat.add_comm, Nat.add_mul_mod_self_right,
    Nat.mod_eq_of_lt hlt]

theorem bitField_lt (msg : GoString) (offset width : Nat) (h : IsBitString msg) :
    bitField msg offset width < 2 ^ width := by
  have h1 := bitsValue_lt ((h.drop offset).take width)
  have h2 : ((msg.drop offset).take width).length ≤ width := by
    simp only [List.length_take]; omega
  exact lt_of_lt_of_le h1 (Nat.pow_le_pow_right (by norm_num) h2)

namespace adsbdecoder

theorem parseDownlinkFormat_bits (bits : GoString) (h : IsBitString bits)
    (hlen : 5 ≤ bits.length) : ParseDownlinkFormat bits = .ok (bitField bits 0 5 : Int) := by
  unfold ParseDownlinkFormat
  rw [sliceTo_eq_ok bits 5 hlen]
  have := parseInt_field bits 0 5 h (by norm_num) (by norm_num) (by omega)
  simp only [List.drop_zero] at this
  simp only [this]

theorem parseCapability_bits (bits : GoString) (h : IsBitString bits)
    (hlen : 8 ≤ bits.length) : ParseCapability bits = .ok (bitField bits 5 3 : Int) := by
  unfold ParseCapability
  rw [slice_eq_ok bits 5 8 (by norm_num) hlen]
  have := parseInt_field bits 5 3 h (by norm_num) (by norm_num) (by omega)
  simp only [this]

theorem parseICAOAddress_bits (bits : GoString) (h : IsBitString bits)
    (hlen : 32 ≤ bits.length) :
    ParseICAOAddress bits = .ok (sprintfX (bitField bits 8 24 : Int)) := by
  unfold ParseICAOAddress
  rw [slice_eq_ok bits 8 32 (by norm_num) hlen]
  have := parseInt_field bits 8 24 h (by norm_num) (by norm_num) (by omega)
  simp only [this]

theorem parseTypeCode_bits (bits : GoString) (h : IsBitString bits)
    (hlen : 37 ≤ bits.length) : ParseTypeCode bits = .ok (bitField bits 32 5 : Int) := by
  unfold ParseTypeCode
  rw [slice_eq_ok bits 32 37 (by norm_num) hlen]
  have := parseInt_field bits 32 5 h (by norm_num) (by norm_num) (by omega)
  simp only [this]

/-- What `HexToBinaryString` accepts, and what it returns then. -/
theorem hexToBinaryString_valid (s : GoString) (hlen : s.length = 28)
    (hhex : ∀ c ∈ s, IsHexDigit c) :
    ∃ bits, HexToBinaryString s = .ok bits ∧ IsBitString bits ∧ bits.length = 112
      ∧ bitsValue bits = hexValue s := by
  obtain ⟨bytes, hb⟩ := (hexDecodeString_isOk_iff s).2 ⟨hhex, by omega⟩
  obtain ⟨b1, b2, b3⟩ := hexDecodeString_bits s bytes hb
  refine ⟨bitsOfBytes bytes, ?_, b1, by omega, b3⟩
  unfold HexToBinaryString
  simp only [hb, foldl_sprintf08b, List.nil_append]
  rw [if_neg (by omega)]

/-- Every other string makes `HexToBinaryString` return an error value. -/
theorem hexToBinaryString_invalid (s : GoString)
    (h : ¬ (s.length = 28 ∧ ∀ c ∈ s, IsHexDigit c)) :
    ∃ e, HexToBinaryString s = .error (.err e) := by
  unfold HexToBinaryString
  cases hd : hexDecodeString s with
  | error e => exact ⟨_, rfl⟩
  | ok bytes =>
    obtain ⟨b1, b2, b3⟩ := hexDecodeString_bits s bytes hd
    have hok := (hexDecodeString_isOk_iff s).1 ⟨bytes, hd⟩
    simp only [foldl_sprintf08b, List.nil_append]
    rw [if_pos]
    · exact ⟨_, rfl⟩
    · intro hcon
      apply h
      exact ⟨by omega, hok.1⟩

/-- On a 112-bit string every header field is read without a fault. -/
theorem decode_of_bits (s bits : GoString) (hs : HexToBinaryString s = .ok bits)
    (h : IsBitString bits) (hlen : bits.length = 112) :
    DecodeModeSMessage s = .ok (headerRecord bits) := by
  unfold DecodeModeSMessage
  simp only [hs, parseDownlinkFormat_bits bits h (by omega),
    parseCapability_bits bits h (by omega), parseICAOAddress_bits bits h (by omega),
    parseTypeCode_bits bits h (by omega)]
  rfl

end adsbdecoder

/-! ## Lemmas on `%X` -/

theorem upperHexDigit_spec : ∀ d, d < 16 →
    IsUpperHexDigit (upperHexDigit d) ∧ hexDigitValue (upperHexDigit d) = d
      ∧ (upperHexDigit d = 48 ↔ d = 0) := by
  decide

theorem hexValue_append_singleton (s : GoString) (c : Nat) :
    hexValue (s ++ [c]) = 16 * hexValue s + hexDigitValue c := by
  simp [hexValue, List.foldl_append]

/-- The digits produced by the `%X` loop, given enough fuel. -/
theorem upperHexAux_spec (fuel : Nat) : ∀ (n : Nat) (acc : GoString), n < fuel →
    ∃ ds, upperHexAux fuel n acc = ds ++ acc ∧ 1 ≤ ds.length
      ∧ (∀ c ∈ ds, IsUpperHexDigit c) ∧ hexValue ds = n ∧ n < 16 ^ ds.length
      ∧ (n ≠ 0 → 16 ^ (ds.length - 1) ≤ n ∧ ds.head? ≠ some 48)
      ∧ (n = 0 → ds = [48]) := by
  induction fuel with
  | zero => intro n acc h; omega
  | succ fuel ih =>
    intro n acc h
    unfold upperHexAux
    by_cases h16 : n < 16
    · rw [if_pos h16]
      obtain ⟨d1, d2, d3⟩ := upperHexDigit_spec n h16
      refine ⟨[upperHexDigit n], rfl, by simp, ?_, ?_, by simpa using h16, ?_, ?_⟩
      · intro c hc
        simp only [List.mem_singleton] at hc
        rw [hc]; exact d1
      · simp [hexValue, d2]
      · intro hn
        refine ⟨by simp; omega, ?_⟩
        simp only [List.head?_cons, ne_eq, Option.some.injEq]
        intro hcon
        exact hn (d3.1 hcon)
      · intro hn
        rw [d3.2 hn]
    · rw [if_neg h16]
      obtain ⟨ds, e1, e2, e3, e4, e5, e6, _⟩ :=
        ih (n / 16) (upperHexDigit (n % 16) :: acc) (by omega)
      obtain ⟨d1, d2, _⟩ := upperHexDigit_spec (n % 16) (Nat.mod_lt _ (by norm_num))
      have hq : n / 16 ≠ 0 := by omega
      obtain ⟨e7, e8⟩ := e6 hq
      refine ⟨ds ++ [upperHexDigit (n % 16)], by rw [e1]; simp, by simp, ?_, ?_, ?_, ?_, ?_⟩
      · intro c hc
        simp only [List.mem_append, List.mem_singleton] at hc
        rcases hc with hc | hc
        · exact e3 c hc
        · rw [hc]; exact d1
      · rw [hexValue_append_singleton, e4, d2]; omega
      · simp only [List.length_append, List.length_singleton, pow_succ]; omega
      · intro _
        refine ⟨?_, ?_⟩
        · simp only [List.length_append, List.length_singleton, Nat.add_sub_cancel]
          have : 16 ^ ds.length = 16 ^ (ds.length - 1) * 16 := by
            rw [← pow_succ]; congr 1; omega
          omega
        · cases ds with
          | nil => simp at e2
          | cons x xs => simpa using e8
      · intro hn; omega

/-- For a non-negative value `%X` prints its upper-case hexadecimal numeral,
with as many digits as the value needs. -/
theorem sprintfX_spec (n : Nat) :
    IsUpperHexNumeral (sprintfX (n : Int)) n ∧ 1 ≤ (sprintfX (n : Int)).length
      ∧ n < 16 ^ (sprintfX (n : Int)).length
      ∧ (n ≠ 0 → 16 ^ ((sprintfX (n : Int)).length - 1) ≤ n)
      ∧ (n = 0 → (sprintfX (n : Int)).length = 1) := by
  obtain ⟨ds, e1, e2, e3, e4, e5, e6, e7⟩ := upperHexAux_spec (n + 1) n [] (by omega)
  have hx : sprintfX (n : Int) = ds := by
    unfold sprintfX
    rw [if_neg (by omega)]
    simpa using e1
  rw [hx]
  refine ⟨⟨?_, e3, e4, ?_⟩, e2, e5, fun h => (e6 h).1, fun h => by rw [e7 h]; rfl⟩
  · intro h0; rw [h0] at e2; simp at e2
  · intro hh
    by_cases hn : n = 0
    · exact e7 hn
    · exact absurd hh (e6 hn).2

/-! ## Lemmas on the identification decoder -/

theorem callsignCharacter_range (v : Int) :
    0 ≤ callsignCharacter v ∧ callsignCharacter v < 128 := by
  unfold callsignCharacter
  split_ifs <;> omega

theorem encodeRune_callsignCharacter (v : Int) :
    encodeRune (callsignCharacter v) = [(callsignCharacter v).toNat] := by
  unfold encodeRune
  simp only [callsignCharacter_range v, and_self, if_true]

/-- The callsign loop on `6 * k` bit characters: it ends without fault after
`k` rounds and has appended one byte per 6-bit group. -/
theorem callsignLoop_bits (k : Nat) : ∀ (s acc : GoString), IsBitString s →
    s.length = 6 * k →
    ∃ cs, callsignLoop s acc = .ok (acc ++ cs) ∧ cs.length = k
      ∧ ∀ i, i < k → cs[i]? = some (callsignByte (bitField s (6 * i) 6)) := by
  induction k with
  | zero =>
    intro s acc _ hlen
    have : s = [] := List.length_eq_zero.1 (by omega)
    subst this
    exact ⟨[], by simp [callsignLoop], rfl, fun i hi => by omega⟩
  | succ k ih =>
    intro s acc hbit hlen
    match s, hbit, hlen with
    | c0 :: c1 :: c2 :: c3 :: c4 :: c5 :: rest, hbit, hlen =>
      have hsplit : IsBitString ([c0, c1, c2, c3, c4, c5] ++ rest) := hbit
      rw [isBitString_append] at hsplit
      have hp := parseInt_bits [c0, c1, c2, c3, c4, c5] hsplit.1 (by simp) (by simp)
      have hrl : rest.length = 6 * k := by
        simp only [List.length_cons] at hlen; omega
      obtain ⟨cs, e1, e2, e3⟩ := ih rest
        (acc ++ [callsignByte (bitsValue [c0, c1, c2, c3, c4, c5])]) hsplit.2 hrl
      refine ⟨callsignByte (bitsValue [c0, c1, c2, c3, c4, c5]) :: cs, ?_, by simp [e2], ?_⟩
      · rw [callsignLoop, hp]
        simp only [encodeRune_callsignCharacter]
        rw [show [(callsignCharacter (bitsValue [c0, c1, c2, c3, c4, c5] : Int)).toNat]
          = [callsignByte (bitsValue [c0, c1, c2, c3, c4, c5])] from rfl, e1]
        simp
      · intro i hi
        cases i with
        | zero => simp [bitField]
        | succ j =>
          have := e3 j (by omega)
          simp only [List.getElem?_cons_succ, this]
          have hd : (c0 :: c1 :: c2 :: c3 :: c4 :: c5 :: rest).drop (6 * (j + 1))
              = rest.drop (6 * j) := by
            rw [show 6 * (j + 1) = 6 * j + 6 from by ring]
            rfl
          simp only [bitField, hd]
    | [], _, hlen => simp at hlen
    | [_], _, hlen => simp at hlen; omega
    | [_, _], _, hlen => simp at hlen; omega
    | [_, _, _], _, hlen => simp at hlen; omega
    | [_, _, _, _], _, hlen => simp at hlen; omega
    | [_, _, _, _, _], _, hlen => simp at hlen; omega

theorem adsbdecoder_identification_eq (msg : GoString) :
    adsbdecoder.ProcessAircraftIdentification msg
      = match slice msg 32 88 with
        | .error f => .error f
        | .ok payload => identificationBody adsbdecoder.getWakeTurbulenceCategory payload := rfl

theorem deocder_identification_eq (payload : GoString) :
    deocder.ProcessAircraftIdentification payload
      = identificationBody deocder.getWakeTurbulenceCategory payload := rfl

/-- On a payload of `8 + 6 * k` bit characters the shared body returns the
`k` callsign bytes and the category of the two leading fields. -/
theorem identificationBody_bits (wake : Int → Int → String) (payload : GoString) (k : Nat)
    (h : IsBitString payload) (hlen : payload.length = 8 + 6 * k) :
    ∃ cs, identificationBody wake payload
        = .ok (cs, wake (bitField payload 0 5 : Int) (bitField payload 5 3 : Int))
      ∧ cs.length = k
      ∧ ∀ i, i < k → cs[i]? = some (callsignByte (bitField payload (8 + 6 * i) 6)) := by
  have h1 := parseInt_field payload 0 5 h (by norm_num) (by norm_num) (by omega)
  have h2 := parseInt_field payload 5 3 h (by norm_num) (by norm_num) (by omega)
  simp only [List.drop_zero] at h1
  obtain ⟨cs, e1, e2, e3⟩ := callsignLoop_bits k ((payload.drop 5).drop 3) []
    ((h.drop 5).drop 3) (by simp only [List.length_drop]; omega)
  refine ⟨cs, ?_, e2, ?_⟩
  · unfold identificationBody
    rw [sliceTo_eq_ok payload 5 (by omega)]
    simp only [h1]
    rw [sliceFrom_eq_ok payload 5 (by omega)]
    simp only []
    rw [sliceTo_eq_ok _ 3 (by simp only [List.length_drop]; omega)]
    simp only [h2]
    rw [sliceFrom_eq_ok _ 3 (by simp only [List.length_drop]; omega)]
    simp only [e1, List.nil_append]
  · intro i hi
    rw [e3 i hi]
    simp only [bitField, List.drop_drop]

/-- A bit field of the payload `msg[32:88]` is the same field of the message. -/
theorem bitField_payload (msg : GoString) (offset width : Nat) (hin : offset + width ≤ 56) :
    bitField ((msg.drop 32).take 56) offset width = bitField msg (32 + offset) width := by
  unfold bitField
  rw [List.drop_take, List.take_take, List.drop_drop]
  congr 2
  · omega

/-! ## Claims on the header decoder of `adsbdecoder` -/

namespace adsbdecoder

/-- C1. Header round trip: a string of 28 hexadecimal digits whose value is
`df * 2^107 + ca * 2^104 + icao * 2^80 + tc * 2^75 + tail` (the 112-bit
sequence df(5) ++ ca(3) ++ icao(24) ++ tc(5) ++ tail(75), most significant
bit first) is accepted by `DecodeModeSMessage`, and the record has `DF = df`,
`CA = ca`, `TC = tc` and as `ICAO` the upper-case hexadecimal numeral of
`icao`. -/
theorem header_round_trip (s : GoString) (df ca icao tc tail : Nat)
    (hdf : df < 32) (hca : ca < 8) (hicao : icao < 2 ^ 24) (htc : tc < 32)
    (htail : tail < 2 ^ 75) (hlen : s.length = 28) (hhex : ∀ c ∈ s, IsHexDigit c)
    (hval : hexValue s = df * 2 ^ 107 + ca * 2 ^ 104 + icao * 2 ^ 80 + tc * 2 ^ 75 + tail) :
    ∃ m, DecodeModeSMessage s = .ok m ∧ m.DF = (df : Int) ∧ m.CA = (ca : Int)
      ∧ m.TC = (tc : Int) ∧ m.ICAO = sprintfX (icao : Int)
      ∧ IsUpperHexNumeral m.ICAO icao := by
  obtain ⟨bits, hb, hbit, hblen, hbval⟩ := hexToBinaryString_valid s hlen hhex
  have f1 := bitField_eq_div_mod bits 0 5 hbit (by omega)
  have f2 := bitField_eq_div_mod bits 5 3 hbit (by omega)
  have f3 := bitField_eq_div_mod bits 8 24 hbit (by omega)
  have f4 := bitField_eq_div_mod bits 32 5 hbit (by omega)
  rw [hblen, hbval, hval] at f1 f2 f3 f4
  norm_num at f1 f2 f3 f4
  have g1 : bitField bits 0 5 = df := by omega
  have g2 : bitField bits 5 3 = ca := by omega
  have g3 : bitField bits 8 24 = icao := by omega
  have g4 : bitField bits 32 5 = tc := by omega
  refine ⟨headerRecord bits, decode_of_bits s bits hb hbit hblen, ?_, ?_, ?_, ?_, ?_⟩
  · simp only [headerRecord, g1]
  · simp only [headerRecord, g2]
  · simp only [headerRecord, g4]
  · simp only [headerRecord, g3]
  · simp only [headerRecord, g3]
    exact (sprintfX_spec icao).1

/-- Witness for C1: the reference message `8D4840D6202CC371C32CE0576098`,
with df = 17, ca = 5, icao = 0x4840D6, tc = 4. -/
theorem header_round_trip_witness :
    (ascii "8D4840D6202CC371C32CE0576098").length = 28
      ∧ (∀ c ∈ ascii "8D4840D6202CC371C32CE0576098", IsHexDigit c)
      ∧ hexValue (ascii "8D4840D6202CC371C32CE0576098")
          = 17 * 2 ^ 107 + 5 * 2 ^ 104 + 4735190 * 2 ^ 80 + 4 * 2 ^ 75 + 825739991350494322840
      ∧ ∃ m, DecodeModeSMessage (ascii "8D4840D6202CC371C32CE0576098") = .ok m
        ∧ m.DF = ((17 : Nat) : Int) ∧ m.CA = ((5 : Nat) : Int) ∧ m.TC = ((4 : Nat) : Int)
        ∧ m.ICAO = sprintfX ((4735190 : Nat) : Int)
        ∧ IsUpperHexNumeral m.ICAO 4735190 :=
  ⟨by decide, by decide, by decide,
    header_round_trip (ascii "8D4840D6202CC371C32CE0576098") 17 5 4735190 4
      825739991350494322840 (by decide) (by decide) (by decide) (by decide) (by decide)
      (by decide) (by decide) (by decide)⟩

/-- C2. `DecodeModeSMessage` never faults on a slice.  It returns a record
exactly for the strings of 28 hexadecimal digits; for every other string the
error comes from `HexToBinaryString`, the first step, so that no header field
has been parsed, and no record is returned. -/
theorem decode_accepts_exactly_28_hex (s : GoString) :
    ((∃ m, DecodeModeSMessage s = .ok m) ↔ (s.length = 28 ∧ ∀ c ∈ s, IsHexDigit c))
      ∧ (¬ (s.length = 28 ∧ ∀ c ∈ s, IsHexDigit c) →
          ∃ e, HexToBinaryString s = .error (.err e)
            ∧ DecodeModeSMessage s
                = .error (.err (.wrap "failed to convert hex to binary" e)))
      ∧ DecodeModeSMessage s ≠ .error .sliceBounds := by
  by_cases hv : s.length = 28 ∧ ∀ c ∈ s, IsHexDigit c
  · obtain ⟨bits, hb, hbit, hblen, _⟩ := hexToBinaryString_valid s hv.1 hv.2
    have hd := decode_of_bits s bits hb hbit hblen
    refine ⟨⟨fun _ => hv, fun _ => ⟨_, hd⟩⟩, fun h => absurd hv h, ?_⟩
    rw [hd]
    intro h; cases h
  · obtain ⟨e, he⟩ := hexToBinaryString_invalid s hv
    have hd : DecodeModeSMessage s
        = .error (.err (.wrap "failed to convert hex to binary" e)) := by
      unfold DecodeModeSMessage
      simp only [he]
    refine ⟨⟨?_, fun h => absurd h hv⟩, fun _ => ⟨e, he, hd⟩, ?_⟩
    · rintro ⟨m, hm⟩
      rw [hd] at hm
      cases hm
    · rw [hd]
      intro h; cases h

/-- C3. Reference vector: `8D4840D6202CC371C32CE0576098` decodes to DF = 17,
CA = 5, ICAO = "4840D6", TC = 4, and `ProcessAircraftIdentification` on the
record's `RawBits` returns the 8-character callsign "KLM1023 ". -/
theorem reference_vector_header_and_callsign :
    ∃ m, DecodeModeSMessage (ascii "8D4840D6202CC371C32CE0576098") = .ok m
      ∧ m.DF = 17 ∧ m.CA = 5 ∧ m.ICAO = ascii "4840D6" ∧ m.TC = 4
      ∧ (∃ wake, ProcessAircraftIdentification m.RawBits = .ok (ascii "KLM1023 ", wake))
      ∧ (ascii "KLM1023 ").length = 8 :=
  ⟨headerRecord (ascii ("10001101010010000100000011010110001000000010110011000011"
      ++ "01110001110000110010110011100000010101110110000010011000")),
    by rfl, by rfl, by rfl, by rfl, by rfl, ⟨"No category information", by rfl⟩, by rfl⟩

end adsbdecoder

/-! ## Claims on the identification decoder of `adsbdecoder` -/

namespace adsbdecoder

/-- On a bit string of at least 88 characters `ProcessAircraftIdentification`
returns eight callsign bytes, one per 6-bit group from bit 40 on, and the
category of the fields at bits 32..36 and 37..39. -/
theorem identification_bits (msg : GoString) (h : IsBitString msg) (hlen : 88 ≤ msg.length) :
    ∃ cs, ProcessAircraftIdentification msg
        = .ok (cs, getWakeTurbulenceCategory (bitField msg 32 5 : Int) (bitField msg 37 3 : Int))
      ∧ cs.length = 8
      ∧ ∀ i, i < 8 → cs[i]? = some (callsignByte (bitField msg (40 + 6 * i) 6)) := by
  have hp : IsBitString ((msg.drop 32).take 56) := (h.drop 32).take 56
  have hl : ((msg.drop 32).take 56).length = 8 + 6 * 8 := by
    simp only [List.length_take, List.length_drop]; omega
  obtain ⟨cs, e1, e2, e3⟩ :=
    identificationBody_bits getWakeTurbulenceCategory _ 8 hp hl
  refine ⟨cs, ?_, e2, ?_⟩
  · rw [adsbdecoder_identification_eq, slice_eq_ok msg 32 88 (by norm_num) hlen]
    simp only [Nat.reduceSub, e1]
    rw [bitField_payload msg 0 5 (by norm_num), bitField_payload msg 5 3 (by norm_num)]
  · intro i hi
    rw [e3 i hi, bitField_payload msg (8 + 6 * i) 6 (by omega)]
    congr 3
    omega

/-- C4. Callsign character map: on a 112-bit message, with `v` the value of
the 6 bits at offset `40 + 6 * i` (`i < 8`), character `i` of the callsign
returned by `ProcessAircraftIdentification` is the byte `v + 64` when
`1 ≤ v ≤ 26`, the byte `v` when `48 ≤ v ≤ 57`, and a space when `v = 32`. -/
theorem callsign_character_map (msg : GoString) (hbit : IsBitString msg)
    (hlen : msg.length = 112) (i : Nat) (hi : i < 8) :
    ∃ callsign wake, ProcessAircraftIdentification msg = .ok (callsign, wake)
      ∧ (1 ≤ bitField msg (40 + 6 * i) 6 ∧ bitField msg (40 + 6 * i) 6 ≤ 26 →
          callsign[i]? = some (bitField msg (40 + 6 * i) 6 + 64))
      ∧ (48 ≤ bitField msg (40 + 6 * i) 6 ∧ bitField msg (40 + 6 * i) 6 ≤ 57 →
          callsign[i]? = some (bitField msg (40 + 6 * i) 6))
      ∧ (bitField msg (40 + 6 * i) 6 = 32 → callsign[i]? = some 32) := by
  obtain ⟨cs, e1, _, e3⟩ := identification_bits msg hbit (by omega)
  refine ⟨cs, _, e1, ?_, ?_, ?_⟩
  · intro hv
    rw [e3 i hi]
    simp only [callsignByte, callsignCharacter]
    rw [if_pos (by omega)]
    congr 1
  · intro hv
    rw [e3 i hi]
    simp only [callsignByte, callsignCharacter]
    rw [if_neg (by omega), if_pos (by omega)]
    congr 1
  · intro hv
    rw [e3 i hi, hv]
    rfl

/-- Witness for C4: the first group of the reference message is 11, the
letter `K` (byte 75). -/
theorem callsign_character_map_witness :
    IsBitString referenceBits ∧ referenceBits.length = 112
      ∧ bitField referenceBits (40 + 6 * 0) 6 = 11
      ∧ ∃ callsign wake, ProcessAircraftIdentification referenceBits = .ok (callsign, wake)
        ∧ callsign[0]? = some (bitField referenceBits (40 + 6 * 0) 6 + 64) := by
  obtain ⟨cs, w, h1, h2, _, _⟩ :=
    callsign_character_map referenceBits (by decide) (by decide) 0 (by decide)
  exact ⟨by decide, by decide, by decide, cs, w, h1, h2 (by decide)⟩

/-- C5, the code at the failing input: in `8D4840D6202CC371C32CC0576098` the
last 6-bit group is 0, outside 1..26, 48..57 and 32; the call succeeds and the
callsign ends in the byte 0. -/
theorem invalid_callsign_character_yields_nul :
    ∃ m, DecodeModeSMessage (ascii "8D4840D6202CC371C32CC0576098") = .ok m
      ∧ bitField m.RawBits (40 + 6 * 7) 6 = 0
      ∧ ∃ wake, ProcessAircraftIdentification m.RawBits
          = .ok ([75, 76, 77, 49, 48, 50, 51, 0], wake) :=
  ⟨headerRecord (ascii ("10001101010010000100000011010110001000000010110011000011"
      ++ "01110001110000110010110011000000010101110110000010011000")),
    by rfl, by decide, ⟨"No category information", by rfl⟩⟩

/-- C6. Rule precedence of the wake-category lookup: type code 1 gives
"Reserved" for every category, also for category 0; category 0 gives
"No category information" for every other type code. -/
theorem wake_rule_precedence (tc ca : Int) :
    getWakeTurbulenceCategory 1 ca = "Reserved"
      ∧ getWakeTurbulenceCategory tc 0
          = if tc = 1 then "Reserved" else "No category information" := by
  constructor
  · unfold getWakeTurbulenceCategory
    rw [if_pos rfl]
  · unfold getWakeTurbulenceCategory
    by_cases h : tc = 1
    · rw [if_pos h, if_pos h]
    · rw [if_neg h, if_neg h, if_pos rfl]

/-- Outside the two guards and the rows of the table the lookup of
`adsbdecoder` gives the zero value of the map, the empty string. -/
theorem getWakeTurbulenceCategory_absent (tc ca : Int) (h1 : tc ≠ 1) (h0 : ca ≠ 0)
    (hrow : ¬ IsTableRow tc ca) : getWakeTurbulenceCategory tc ca = "" := by
  unfold getWakeTurbulenceCategory
  rw [if_neg h1, if_neg h0]
  unfold IsTableRow at hrow
  simp only [wakeVortexCategorylookupTable, mapIndex]
  split_ifs <;> first | rfl | (simp only [mapIndex]; split_ifs <;> first | rfl | omega)

/-- C7, counterexample: (2, 2) is no row of the table, yet the lookup returns
the empty string, and `ProcessAircraftIdentification` on the message
`8D4840D6122CC371C32CE0576098` (type code 2, category 2) returns without error
with the empty string as wake category. -/
theorem unknown_category_returns_empty :
    ¬ IsTableRow 2 2 ∧ getWakeTurbulenceCategory 2 2 = ""
      ∧ ∃ m, DecodeModeSMessage (ascii "8D4840D6122CC371C32CE0576098") = .ok m
        ∧ bitField m.RawBits 32 5 = 2 ∧ bitField m.RawBits 37 3 = 2
        ∧ ProcessAircraftIdentification m.RawBits = .ok (ascii "KLM1023 ", "") :=
  ⟨by decide, by rfl,
    headerRecord (ascii ("10001101010010000100000011010110000100100010110011000011"
      ++ "01110001110000110010110011100000010101110110000010011000")),
    by rfl, by decide, by decide, by rfl⟩

/-- C7 as amended: for every (tc, ca) with `tc ≠ 1` and `ca ≠ 0` that is not
a row of the static table, the lookup returns the empty string, and
`ProcessAircraftIdentification` on every 112-bit message that carries this
type code and category returns without error, with the empty string as wake
category. -/
theorem unknown_category_is_empty_string (tc ca : Int) (h1 : tc ≠ 1) (h0 : ca ≠ 0)
    (hrow : ¬ IsTableRow tc ca) :
    getWakeTurbulenceCategory tc ca = ""
      ∧ ∀ msg : GoString, IsBitString msg → msg.length = 112 →
          (bitField msg 32 5 : Int) = tc → (bitField msg 37 3 : Int) = ca →
          ∃ callsign, ProcessAircraftIdentification msg = .ok (callsign, "") := by
  have hw := getWakeTurbulenceCategory_absent tc ca h1 h0 hrow
  refine ⟨hw, ?_⟩
  intro msg hbit hlen htc hca
  obtain ⟨cs, e1, _, _⟩ := identification_bits msg hbit (by omega)
  rw [htc, hca, hw] at e1
  exact ⟨cs, e1⟩

/-- Witness for C7 as amended: type code 2 and category 2, on the bits of
`8D4840D6122CC371C32CE0576098`. -/
theorem unknown_category_is_empty_string_witness :
    (2 : Int) ≠ 1 ∧ (2 : Int) ≠ 0 ∧ ¬ IsTableRow 2 2
      ∧ getWakeTurbulenceCategory 2 2 = ""
      ∧ ∃ callsign, ProcessAircraftIdentification
          (ascii ("10001101010010000100000011010110000100100010110011000011"
            ++ "01110001110000110010110011100000010101110110000010011000"))
          = .ok (callsign, "") :=
  ⟨by decide, by decide, by decide,
    (unknown_category_is_empty_string 2 2 (by decide) (by decide) (by decide)).1,
    (unknown_category_is_empty_string 2 2 (by decide) (by decide) (by decide)).2
      _ (by decide) (by decide) (by decide) (by decide)⟩

/-- C8, counterexample: on the bits of `8D4840D6202CC371C32CE0576098` the wake
category returned by `ProcessAircraftIdentification` is not
"Medium 1 (between 7000 kg and 34000 kg)". -/
theorem reference_vector_wake_not_medium :
    ∃ m, DecodeModeSMessage (ascii "8D4840D6202CC371C32CE0576098") = .ok m
      ∧ ∃ callsign wake, ProcessAircraftIdentification m.RawBits = .ok (callsign, wake)
        ∧ wake ≠ "Medium 1 (between 7000 kg and 34000 kg)" :=
  ⟨headerRecord referenceBits, by rfl, ascii "KLM1023 ", "No category information", by rfl,
    by decide⟩

/-- C8 as amended: on the bits of `8D4840D6202CC371C32CE0576098` the payload
has type code 4 and category 0 (the header capability 5 is not used), and the
wake category returned is "No category information". -/
theorem reference_vector_wake_category :
    ∃ m, DecodeModeSMessage (ascii "8D4840D6202CC371C32CE0576098") = .ok m
      ∧ m.CA = 5 ∧ bitField m.RawBits 32 5 = 4 ∧ bitField m.RawBits 37 3 = 0
      ∧ ∃ callsign, ProcessAircraftIdentification m.RawBits
          = .ok (callsign, "No category information") :=
  ⟨headerRecord referenceBits, by rfl, by rfl, by decide, by decide, ascii "KLM1023 ", by rfl⟩

/-- An accepted input is a string of 28 hexadecimal digits, and the record is
the header record of its 112 bits. -/
theorem decode_ok_inv (s : GoString) (m : ModeSMessage) (h : DecodeModeSMessage s = .ok m) :
    ∃ bits, HexToBinaryString s = .ok bits ∧ IsBitString bits ∧ bits.length = 112
      ∧ m = headerRecord bits := by
  by_cases hv : s.length = 28 ∧ ∀ c ∈ s, IsHexDigit c
  · obtain ⟨bits, hb, hbit, hblen, _⟩ := hexToBinaryString_valid s hv.1 hv.2
    rw [decode_of_bits s bits hb hbit hblen] at h
    injection h with h
    exact ⟨bits, hb, hbit, hblen, h.symm⟩
  · obtain ⟨e, he⟩ := hexToBinaryString_invalid s hv
    unfold DecodeModeSMessage at h
    simp only [he] at h
    cases h

/-- C9, counterexample: `8D000001202CC371C32CE0576098` is accepted and the
ICAO field of the record is the one-character string "1". -/
theorem icao_not_six_digits :
    ∃ m, DecodeModeSMessage (ascii "8D000001202CC371C32CE0576098") = .ok m
      ∧ m.ICAO = ascii "1" ∧ m.ICAO.length ≠ 6 :=
  ⟨headerRecord (ascii ("10001101000000000000000000000001001000000010110011000011"
      ++ "01110001110000110010110011100000010101110110000010011000")),
    by rfl, by rfl, by decide⟩

/-- C9 as amended: for every accepted input the ICAO field is the upper-case
hexadecimal numeral of the 24-bit address in bits 8..31 without leading
zeros; it has one to six digits, and exactly six when the address is at least
0x100000. -/
theorem icao_is_unpadded_hex_numeral (s : GoString) (m : ModeSMessage)
    (h : DecodeModeSMessage s = .ok m) :
    IsUpperHexNumeral m.ICAO (bitField m.RawBits 8 24)
      ∧ 1 ≤ m.ICAO.length ∧ m.ICAO.length ≤ 6
      ∧ (m.ICAO.length = 6 ↔ 2 ^ 20 ≤ bitField m.RawBits 8 24) := by
  obtain ⟨bits, _, hbit, _, hm⟩ := decode_ok_inv s m h
  subst hm
  simp only [headerRecord]
  obtain ⟨n1, n2, n3, n4, n5⟩ := sprintfX_spec (bitField bits 8 24)
  have hlt : bitField bits 8 24 < 16 ^ 6 := by
    have := bitField_lt bits 8 24 hbit
    norm_num at this ⊢
    exact this
  generalize bitField bits 8 24 = n at *
  generalize (sprintfX (n : Int)).length = len at *
  have hle : len ≤ 6 := by
    by_cases hn : n = 0
    · have := n5 hn
      omega
    · have h5 := n4 hn
      by_contra hcon
      have : (16 : Nat) ^ 6 ≤ 16 ^ (len - 1) := Nat.pow_le_pow_right (by norm_num) (by omega)
      omega
  refine ⟨n1, n2, hle, ?_, ?_⟩
  · intro h6
    subst h6
    by_cases hn : n = 0
    · have := n5 hn
      omega
    · have := n4 hn
      norm_num at this ⊢
      exact this
  · intro h20
    by_contra hcon
    have : (16 : Nat) ^ len ≤ 16 ^ 5 := Nat.pow_le_pow_right (by norm_num) (by omega)
    norm_num at h20 this
    omega

/-- Witness for C9 as amended: the reference message, whose address 0x4840D6
needs six digits. -/
theorem icao_is_unpadded_hex_numeral_witness :
    DecodeModeSMessage (ascii "8D4840D6202CC371C32CE0576098") = .ok (headerRecord referenceBits)
      ∧ IsUpperHexNumeral (headerRecord referenceBits).ICAO
          (bitField (headerRecord referenceBits).RawBits 8 24)
      ∧ 1 ≤ (headerRecord referenceBits).ICAO.length
      ∧ (headerRecord referenceBits).ICAO.length ≤ 6
      ∧ ((headerRecord referenceBits).ICAO.length = 6
          ↔ 2 ^ 20 ≤ bitField (headerRecord referenceBits).RawBits 8 24) :=
  ⟨by rfl, icao_is_unpadded_hex_numeral (ascii "8D4840D6202CC371C32CE0576098")
    (headerRecord referenceBits) (by rfl)⟩

end adsbdecoder

/-! ## Claims on the decoder of `deocder.go` -/

namespace deocder

/-- On a 112-bit string, `ProcessAircraftIdentification` of `deocder.go` on
the payload `bits[32:88]` returns eight callsign bytes and the category of the
fields at bits 32..36 and 37..39. -/
theorem identification_payload (bits : GoString) (h : IsBitString bits)
    (hlen : 88 ≤ bits.length) :
    ∃ cs, ProcessAircraftIdentification ((bits.drop 32).take 56)
        = .ok (cs, getWakeTurbulenceCategory (bitField bits 32 5 : Int)
            (bitField bits 37 3 : Int))
      ∧ cs.length = 8
      ∧ ∀ i, i < 8 → cs[i]? = some (callsignByte (bitField bits (40 + 6 * i) 6)) := by
  have hp : IsBitString ((bits.drop 32).take 56) := (h.drop 32).take 56
  have hl : ((bits.drop 32).take 56).length = 8 + 6 * 8 := by
    simp only [List.length_take, List.length_drop]; omega
  obtain ⟨cs, e1, e2, e3⟩ :=
    identificationBody_bits getWakeTurbulenceCategory _ 8 hp hl
  refine ⟨cs, ?_, e2, ?_⟩
  · rw [deocder_identification_eq, e1, bitField_payload bits 0 5 (by norm_num),
      bitField_payload bits 5 3 (by norm_num)]
  · intro i hi
    rw [e3 i hi, bitField_payload bits (8 + 6 * i) 6 (by omega)]
    congr 3
    omega

/-- The dispatch of `DecodeModeSMessage` on the cursor left after the ICAO
address, for a 112-bit string. -/
theorem decodePayload_bits (df ca : Int) (icao bits : GoString) (h : IsBitString bits)
    (hlen : bits.length = 112) :
    ∃ m, decodePayload df ca icao bits (bits.drop 32) = .ok m
      ∧ m.DF = df ∧ m.CA = ca ∧ m.ICAO = icao ∧ m.RawBits = bits
      ∧ ((1 ≤ bitField bits 32 5 ∧ bitField bits 32 5 ≤ 4) →
          m.Callsign.length = 8
          ∧ ProcessAircraftIdentification ((bits.drop 32).take 56)
              = .ok (m.Callsign, m.WakeCategory))
      ∧ (¬ (1 ≤ bitField bits 32 5 ∧ bitField bits 32 5 ≤ 4) →
          m.Callsign = [] ∧ m.WakeCategory = "") := by
  have hl : (bits.drop 32).length = 80 := by simp only [List.length_drop]; omega
  have htc := parseInt_field bits 32 5 h (by norm_num) (by norm_num) (by omega)
  obtain ⟨cs, e1, e2, _⟩ := identification_payload bits h (by omega)
  unfold decodePayload
  rw [sliceTo_eq_ok _ 5 (by omega)]
  simp only [htc]
  by_cases hr : 1 ≤ bitField bits 32 5 ∧ bitField bits 32 5 ≤ 4
  · have hr2 : (1 : Int) ≤ (bitField bits 32 5 : Int) ∧ (bitField bits 32 5 : Int) ≤ 4 := by
      omega
    rw [if_pos hr2, sliceTo_eq_ok _ 56 (by omega)]
    simp only [e1]
    rw [sliceFrom_eq_ok _ 56 (by omega)]
    exact ⟨_, rfl, rfl, rfl, rfl, rfl, fun _ => ⟨e2, rfl⟩, fun hn => absurd hr hn⟩
  · have hr2 : ¬ ((1 : Int) ≤ (bitField bits 32 5 : Int) ∧ (bitField bits 32 5 : Int) ≤ 4) := by
      omega
    rw [if_neg hr2, sliceFrom_eq_ok _ 56 (by omega)]
    exact ⟨_, rfl, rfl, rfl, rfl, rfl, fun hn => absurd hn hr, fun _ => ⟨rfl, rfl⟩⟩

/-- On a 112-bit string `DecodeModeSMessage` of `deocder.go` reads every
field without a fault. -/
theorem cursor_decode_of_bits (s bits : GoString) (hs : ModeSHexToBin s = .ok bits)
    (h : IsBitString bits) (hlen : bits.length = 112) :
    ∃ m, DecodeModeSMessage s = .ok m
      ∧ m.DF = (bitField bits 0 5 : Int) ∧ m.CA = (bitField bits 5 3 : Int)
      ∧ m.ICAO = sprintfX (bitField bits 8 24 : Int) ∧ m.RawBits = bits
      ∧ ((1 ≤ bitField bits 32 5 ∧ bitField bits 32 5 ≤ 4) →
          m.Callsign.length = 8
          ∧ ProcessAircraftIdentification ((bits.drop 32).take 56)
              = .ok (m.Callsign, m.WakeCategory))
      ∧ (¬ (1 ≤ bitField bits 32 5 ∧ bitField bits 32 5 ≤ 4) →
          m.Callsign = [] ∧ m.WakeCategory = "") := by
  have h1 := parseInt_field bits 0 5 h (by norm_num) (by norm_num) (by omega)
  have h2 := parseInt_field bits 5 3 h (by norm_num) (by norm_num) (by omega)
  have h3 := parseInt_field bits 8 24 h (by norm_num) (by norm_num) (by omega)
  simp only [List.drop_zero] at h1
  have d1 : (bits.drop 5).drop 3 = bits.drop 8 := by rw [List.drop_drop]
  have d2 : (bits.drop 8).drop 24 = bits.drop 32 := by rw [List.drop_drop]
  unfold DecodeModeSMessage
  simp only [hs]
  rw [if_neg (by omega), sliceTo_eq_ok bits 5 (by omega)]
  simp only [h1]
  rw [sliceFrom_eq_ok bits 5 (by omega)]
  simp only []
  rw [sliceTo_eq_ok _ 3 (by simp only [List.length_drop]; omega)]
  simp only [h2]
  rw [sliceFrom_eq_ok _ 3 (by simp only [List.length_drop]; omega)]
  simp only [d1]
  rw [sliceTo_eq_ok _ 24 (by simp only [List.length_drop]; omega)]
  simp only [h3]
  rw [sliceFrom_eq_ok _ 24 (by simp only [List.length_drop]; omega)]
  simp only [d2]
  exact decodePayload_bits _ _ _ bits h hlen

/-- An input accepted by `DecodeModeSMessage` of `deocder.go` has 112 bits. -/
theorem cursor_decode_ok_inv (s : GoString) (m : ModeSMessage) (h : DecodeModeSMessage s = .ok m) :
    ∃ bits, ModeSHexToBin s = .ok bits ∧ IsBitString bits ∧ bits.length = 112 := by
  cases hd : hexDecodeString s with
  | error e =>
    unfold DecodeModeSMessage ModeSHexToBin at h
    simp only [hd] at h
    cases h
  | ok bytes =>
    obtain ⟨b1, _, _⟩ := hexDecodeString_bits s bytes hd
    have hm : ModeSHexToBin s = .ok (bitsOfBytes bytes) := by
      unfold ModeSHexToBin
      simp only [hd, foldl_sprintf08b, List.nil_append]
    refine ⟨bitsOfBytes bytes, hm, b1, ?_⟩
    by_contra hne
    unfold DecodeModeSMessage at h
    simp only [hm] at h
    rw [if_pos hne] at h
    cases h

/-- C10. Dispatch on the type code in `deocder.go`: for every accepted input,
with `tc` the value of bits 32..36 of the record's `RawBits`, the callsign is
non-empty exactly when `1 ≤ tc ≤ 4`, and is then the callsign that
`ProcessAircraftIdentification` returns for bits 32..87 (and the wake category
the one it returns); the wake category is non-empty only when `1 ≤ tc ≤ 4`. -/
theorem dispatch_on_type_code (s : GoString) (m : ModeSMessage)
    (h : DecodeModeSMessage s = .ok m) :
    (m.Callsign ≠ [] ↔ (1 ≤ bitField m.RawBits 32 5 ∧ bitField m.RawBits 32 5 ≤ 4))
      ∧ ((1 ≤ bitField m.RawBits 32 5 ∧ bitField m.RawBits 32 5 ≤ 4) →
          ProcessAircraftIdentification ((m.RawBits.drop 32).take 56)
            = .ok (m.Callsign, m.WakeCategory))
      ∧ (m.WakeCategory ≠ "" → (1 ≤ bitField m.RawBits 32 5 ∧ bitField m.RawBits 32 5 ≤ 4)) := by
  obtain ⟨bits, hb, hbit, hlen⟩ := cursor_decode_ok_inv s m h
  obtain ⟨m2, e0, _, _, _, e4, e5, e6⟩ := cursor_decode_of_bits s bits hb hbit hlen
  rw [h] at e0
  injection e0 with e0
  subst e0
  rw [e4]
  refine ⟨⟨?_, ?_⟩, fun hr => (e5 hr).2, ?_⟩
  · intro hne
    by_contra hr
    exact hne (e6 hr).1
  · intro hr hnil
    have := (e5 hr).1
    rw [hnil] at this
    simp at this
  · intro hne
    by_contra hr
    exact hne (e6 hr).2

/-- Witness for C10: the reference message, type code 4. -/
theorem dispatch_on_type_code_witness :
    DecodeModeSMessage (ascii "8D4840D6202CC371C32CE0576098")
        = .ok { DF := 17, CA := 5, ICAO := ascii "4840D6", Callsign := ascii "KLM1023 ",
                RawBits := referenceBits, WakeCategory := "No category information" }
      ∧ bitField referenceBits 32 5 = 4
      ∧ ((ascii "KLM1023 ") ≠ []
          ↔ (1 ≤ bitField referenceBits 32 5 ∧ bitField referenceBits 32 5 ≤ 4))
      ∧ ((1 ≤ bitField referenceBits 32 5 ∧ bitField referenceBits 32 5 ≤ 4) →
          ProcessAircraftIdentification ((referenceBits.drop 32).take 56)
            = .ok (ascii "KLM1023 ", "No category information"))
      ∧ ("No category information" ≠ ""
          → (1 ≤ bitField referenceBits 32 5 ∧ bitField referenceBits 32 5 ≤ 4)) :=
  ⟨by rfl, by decide,
    dispatch_on_type_code (ascii "8D4840D6202CC371C32CE0576098")
      { DF := 17, CA := 5, ICAO := ascii "4840D6", Callsign := ascii "KLM1023 ",
        RawBits := referenceBits, WakeCategory := "No category information" } (by rfl)⟩

end deocder

/-! ## Claims on the callsign loop and the wake-category tables -/

/-- On `6 * k` bit characters the counted loop makes exactly `k` rounds and
builds the callsign of `callsignLoop`. -/
theorem callsignLoopRounds_bits (k : Nat) : ∀ (s acc : GoString) (n : Nat), IsBitString s →
    s.length = 6 * k →
    ∃ cs, callsignLoop s acc = .ok (acc ++ cs)
      ∧ callsignLoopRounds s acc n = .ok (acc ++ cs, n + k) := by
  induction k with
  | zero =>
    intro s acc n _ hlen
    have : s = [] := List.length_eq_zero.1 (by omega)
    subst this
    exact ⟨[], by simp [callsignLoop], by simp [callsignLoopRounds]⟩
  | succ k ih =>
    intro s acc n hbit hlen
    match s, hbit, hlen with
    | c0 :: c1 :: c2 :: c3 :: c4 :: c5 :: rest, hbit, hlen =>
      have hsplit : IsBitString ([c0, c1, c2, c3, c4, c5] ++ rest) := hbit
      rw [isBitString_append] at hsplit
      have hp := parseInt_bits [c0, c1, c2, c3, c4, c5] hsplit.1 (by simp) (by simp)
      have hrl : rest.length = 6 * k := by
        simp only [List.length_cons] at hlen; omega
      obtain ⟨cs, e1, e2⟩ := ih rest
        (acc ++ encodeRune (callsignCharacter (bitsValue [c0, c1, c2, c3, c4, c5] : Int)))
        (n + 1) hsplit.2 hrl
      refine ⟨encodeRune (callsignCharacter (bitsValue [c0, c1, c2, c3, c4, c5] : Int)) ++ cs,
        ?_, ?_⟩
      · rw [callsignLoop, hp]
        simp only [e1, List.append_assoc]
      · rw [callsignLoopRounds, hp]
        simp only [e2, List.append_assoc]
        congr 2
        omega
    | [], _, hlen => simp at hlen
    | [_], _, hlen => simp at hlen; omega
    | [_, _], _, hlen => simp at hlen; omega
    | [_, _, _], _, hlen => simp at hlen; omega
    | [_, _, _, _], _, hlen => simp at hlen; omega
    | [_, _, _, _, _], _, hlen => simp at hlen; omega

namespace adsbdecoder

/-- C11. On every 112-character bit string `ProcessAircraftIdentification`
returns without error; the loop over the 48 characters `msg[40:88]` makes
exactly 8 rounds, and the callsign it returns has exactly 8 characters, one
per 6-bit group, none removed. -/
theorem identification_eight_rounds (msg : GoString) (hbit : IsBitString msg)
    (hlen : msg.length = 112) :
    ∃ callsign wake, ProcessAircraftIdentification msg = .ok (callsign, wake)
      ∧ callsignLoopRounds ((msg.drop 40).take 48) [] 0 = .ok (callsign, 8)
      ∧ callsign.length = 8
      ∧ ∀ i, i < 8 → callsign[i]? = some (callsignByte (bitField msg (40 + 6 * i) 6)) := by
  obtain ⟨cs, e1, e2, e3⟩ := identification_bits msg hbit (by omega)
  have hc : IsBitString ((msg.drop 40).take 48) := (hbit.drop 40).take 48
  have hl : ((msg.drop 40).take 48).length = 6 * 8 := by
    simp only [List.length_take, List.length_drop]; omega
  obtain ⟨ds, d1, d2⟩ := callsignLoopRounds_bits 8 _ [] 0 hc hl
  obtain ⟨ds2, f1, f2, f3⟩ := callsignLoop_bits 8 _ [] hc hl
  rw [d1] at f1
  simp only [List.nil_append, Except.ok.injEq] at f1
  subst f1
  have hcs : cs = ds := by
    apply List.ext_getElem?
    intro i
    by_cases hi : i < 8
    · rw [e3 i hi, f3 i hi]
      congr 2
      simp only [bitField, List.drop_take, List.take_take, List.drop_drop]
      congr 2
      · omega
    · rw [List.getElem?_eq_none (by omega), List.getElem?_eq_none (by omega)]
  subst hcs
  refine ⟨cs, _, e1, ?_, e2, e3⟩
  simpa using d2

/-- Witness for C11: the 112 bits of the reference message. -/
theorem identification_eight_rounds_witness :
    IsBitString referenceBits ∧ referenceBits.length = 112
      ∧ ∃ callsign wake, ProcessAircraftIdentification referenceBits = .ok (callsign, wake)
        ∧ callsignLoopRounds ((referenceBits.drop 40).take 48) [] 0 = .ok (callsign, 8)
        ∧ callsign.length = 8
        ∧ ∀ i, i < 8 →
            callsign[i]? = some (callsignByte (bitField referenceBits (40 + 6 * i) 6)) :=
  ⟨by decide, by decide, identification_eight_rounds referenceBits (by decide) (by decide)⟩

/-- C12. Ground obstructions and the rows of the table: for `tc = 2` and
`4 ≤ ca ≤ 7` the lookup returns "Ground obstruction"; and for `tc` in {2, 3, 4}
and `1 ≤ ca ≤ 7` the nested map has an entry for `(tc, ca)` exactly when the
pair is a row of the table of the specification, that is, for every pair
except (2, 2). -/
theorem table_rows_match_specification (tc ca : Int) (htc : tc = 2 ∨ tc = 3 ∨ tc = 4)
    (hca : 1 ≤ ca ∧ ca ≤ 7) :
    (tc = 2 → 4 ≤ ca → getWakeTurbulenceCategory tc ca = "Ground obstruction")
      ∧ (tableHasEntry tc ca = true ↔ IsTableRow tc ca)
      ∧ (IsTableRow tc ca ↔ ¬ (tc = 2 ∧ ca = 2)) := by
  obtain ⟨h1, h7⟩ := hca
  have hcases : ca = 1 ∨ ca = 2 ∨ ca = 3 ∨ ca = 4 ∨ ca = 5 ∨ ca = 6 ∨ ca = 7 := by omega
  rcases htc with rfl | rfl | rfl <;>
    rcases hcases with rfl | rfl | rfl | rfl | rfl | rfl | rfl <;> decide

/-- Witness for C12: the pair (2, 5). -/
theorem table_rows_match_specification_witness :
    ((2 : Int) = 2 ∨ (2 : Int) = 3 ∨ (2 : Int) = 4) ∧ ((1 : Int) ≤ 5 ∧ (5 : Int) ≤ 7)
      ∧ ((2 : Int) = 2 → (4 : Int) ≤ 5 → getWakeTurbulenceCategory 2 5 = "Ground obstruction")
      ∧ (tableHasEntry 2 5 = true ↔ IsTableRow 2 5)
      ∧ (IsTableRow 2 5 ↔ ¬ ((2 : Int) = 2 ∧ (5 : Int) = 2)) :=
  ⟨by decide, by decide, table_rows_match_specification 2 5 (by decide) (by decide)⟩

end adsbdecoder

/-! ## Claims relating the two programs -/

/-- C20. The two wake-category lookups return the same string for every
`(tc, ca)` except `tc = 2` with `ca` in {5, 6, 7}; there `adsbdecoder` returns
"Ground obstruction" while `deocder.go` returns "Reserved" for `ca = 5` and
the empty string for `ca = 6` and `ca = 7`. -/
theorem wake_lookups_differ_on_three_inputs (tc ca : Int) :
    (¬ (tc = 2 ∧ (ca = 5 ∨ ca = 6 ∨ ca = 7)) →
        deocder.getWakeTurbulenceCategory tc ca = adsbdecoder.getWakeTurbulenceCategory tc ca)
      ∧ adsbdecoder.getWakeTurbulenceCategory 2 5 = "Ground obstruction"
      ∧ adsbdecoder.getWakeTurbulenceCategory 2 6 = "Ground obstruction"
      ∧ adsbdecoder.getWakeTurbulenceCategory 2 7 = "Ground obstruction"
      ∧ deocder.getWakeTurbulenceCategory 2 5 = "Reserved"
      ∧ deocder.getWakeTurbulenceCategory 2 6 = ""
      ∧ deocder.getWakeTurbulenceCategory 2 7 = "" := by
  refine ⟨?_, by decide, by decide, by decide, by decide, by decide, by decide⟩
  intro h
  unfold deocder.getWakeTurbulenceCategory adsbdecoder.getWakeTurbulenceCategory
  by_cases h1 : tc = 1
  · rw [if_pos h1, if_pos h1]
  · rw [if_neg h1, if_neg h1]
    by_cases h0 : ca = 0
    · rw [if_pos h0, if_pos h0]
    · rw [if_neg h0, if_neg h0]
      simp only [deocder.wakeVortexCategorylookupTable,
        adsbdecoder.wakeVortexCategorylookupTable, mapIndex]
      rw [if_neg h1]
      split_ifs <;>
        first
          | rfl
          | (simp only [mapIndex]; split_ifs <;> first | rfl | omega)

/-- Witness for C20: the pair (3, 6), on which the two lookups agree. -/
theorem wake_lookups_differ_on_three_inputs_witness :
    ¬ ((3 : Int) = 2 ∧ ((6 : Int) = 5 ∨ (6 : Int) = 6 ∨ (6 : Int) = 7))
      ∧ deocder.getWakeTurbulenceCategory 3 6 = adsbdecoder.getWakeTurbulenceCategory 3 6 :=
  ⟨by decide, (wake_lookups_differ_on_three_inputs 3 6).1 (by decide)⟩

/-- The two conversions agree: `HexToBinaryString` returns the bits of
`ModeSHexToBin` when there are 112 of them. -/
theorem hexToBinaryString_eq_modeSHexToBin (s bits : GoString) :
    adsbdecoder.HexToBinaryString s = .ok bits
      ↔ (deocder.ModeSHexToBin s = .ok bits ∧ bits.length = 112) := by
  unfold adsbdecoder.HexToBinaryString deocder.ModeSHexToBin
  cases hexDecodeString s with
  | error e => simp
  | ok bytes =>
    simp only [Except.ok.injEq]
    by_cases hl : (bytes.foldl (fun acc b => acc ++ sprintf08b b) []).length = 112
    · rw [if_neg (by simpa using hl)]
      simp only [Except.ok.injEq]
      constructor
      · intro h; subst h; exact ⟨rfl, hl⟩
      · intro h; exact h.1
    · rw [if_pos (by simpa using hl)]
      constructor
      · intro h; cases h
      · rintro ⟨h, h2⟩; subst h; exact absurd h2 hl

/-- A string that is not made of 28 hexadecimal digits makes
`DecodeModeSMessage` of `adsbdecoder` return an error value. -/
theorem adsbdecoder_decode_invalid (s : GoString)
    (h : ¬ (s.length = 28 ∧ ∀ c ∈ s, IsHexDigit c)) :
    ∃ e, adsbdecoder.DecodeModeSMessage s = .error (.err e) := by
  obtain ⟨e, he⟩ := adsbdecoder.hexToBinaryString_invalid s h
  refine ⟨.wrap "failed to convert hex to binary" e, ?_⟩
  unfold adsbdecoder.DecodeModeSMessage
  simp only [he]

/-- A string that is not made of 28 hexadecimal digits makes
`DecodeModeSMessage` of `deocder.go` return an error value. -/
theorem cursor_decode_invalid (s : GoString)
    (h : ¬ (s.length = 28 ∧ ∀ c ∈ s, IsHexDigit c)) :
    ∃ e, deocder.DecodeModeSMessage s = .error (.err e) := by
  cases hd : hexDecodeString s with
  | error e =>
    refine ⟨.wrap "failed to convert hex to binary" (.wrap "failed to decode hex string" e), ?_⟩
    unfold deocder.DecodeModeSMessage deocder.ModeSHexToBin
    simp only [hd]
  | ok bytes =>
    obtain ⟨_, b2, _⟩ := hexDecodeString_bits s bytes hd
    have hok := (hexDecodeString_isOk_iff s).1 ⟨bytes, hd⟩
    have hm : deocder.ModeSHexToBin s = .ok (bitsOfBytes bytes) := by
      unfold deocder.ModeSHexToBin
      simp only [hd, foldl_sprintf08b, List.nil_append]
    refine ⟨.not112Bits, ?_⟩
    unfold deocder.DecodeModeSMessage
    simp only [hm]
    rw [if_pos]
    intro hcon
    exact h ⟨by omega, hok.1⟩

/-- C19. The two header decoders are equivalent: on every input string
`DecodeModeSMessage` of `deocder.go` returns a record exactly when
`DecodeModeSMessage` of `adsbdecoder` does, neither ever faults on a slice,
and when both return a record the two records have equal DF, CA, ICAO and
RawBits. -/
theorem header_decoders_equivalent (s : GoString) :
    ((∃ m, deocder.DecodeModeSMessage s = .ok m)
        ↔ (∃ m, adsbdecoder.DecodeModeSMessage s = .ok m))
      ∧ deocder.DecodeModeSMessage s ≠ .error .sliceBounds
      ∧ adsbdecoder.DecodeModeSMessage s ≠ .error .sliceBounds
      ∧ ∀ m1 m2, deocder.DecodeModeSMessage s = .ok m1 →
          adsbdecoder.DecodeModeSMessage s = .ok m2 →
          m1.DF = m2.DF ∧ m1.CA = m2.CA ∧ m1.ICAO = m2.ICAO ∧ m1.RawBits = m2.RawBits := by
  by_cases hv : s.length = 28 ∧ ∀ c ∈ s, IsHexDigit c
  · obtain ⟨bits, hb, hbit, hblen, _⟩ := adsbdecoder.hexToBinaryString_valid s hv.1 hv.2
    have ha := adsbdecoder.decode_of_bits s bits hb hbit hblen
    have hm := ((hexToBinaryString_eq_modeSHexToBin s bits).1 hb).1
    obtain ⟨m, hd, d1, d2, d3, d4, _, _⟩ := deocder.cursor_decode_of_bits s bits hm hbit hblen
    refine ⟨⟨fun _ => ⟨_, ha⟩, fun _ => ⟨_, hd⟩⟩, ?_, ?_, ?_⟩
    · rw [hd]; intro h; cases h
    · rw [ha]; intro h; cases h
    · intro m1 m2 h1 h2
      rw [hd] at h1
      rw [ha] at h2
      injection h1 with h1
      injection h2 with h2
      subst h1
      subst h2
      exact ⟨d1, d2, d3, d4⟩
  · obtain ⟨e1, ha⟩ := adsbdecoder_decode_invalid s hv
    obtain ⟨e2, hd⟩ := cursor_decode_invalid s hv
    refine ⟨⟨?_, ?_⟩, ?_, ?_, ?_⟩
    · rintro ⟨m, hm⟩; rw [hd] at hm; cases hm
    · rintro ⟨m, hm⟩; rw [ha] at hm; cases hm
    · rw [hd]; intro h; cases h
    · rw [ha]; intro h; cases h
    · intro m1 m2 h1
      rw [hd] at h1; cases h1

/-! ## Claims on the field readers applied to arbitrary strings -/

/-- On a string of `6 * k` bytes, whatever they are, the callsign loop never
takes a slice out of range. -/
theorem callsignLoop_no_fault (k : Nat) : ∀ (s acc : GoString), s.length = 6 * k →
    callsignLoop s acc ≠ .error .sliceBounds := by
  induction k with
  | zero =>
    intro s acc hlen
    have : s = [] := List.length_eq_zero.1 (by omega)
    subst this
    simp [callsignLoop]
  | succ k ih =>
    intro s acc hlen
    match s, hlen with
    | c0 :: c1 :: c2 :: c3 :: c4 :: c5 :: rest, hlen =>
      have hrl : rest.length = 6 * k := by
        simp only [List.length_cons] at hlen; omega
      rw [callsignLoop]
      cases ParseInt [c0, c1, c2, c3, c4, c5] 2 with
      | error e => simp
      | ok v => exact ih rest _ hrl
    | [], hlen => simp at hlen
    | [_], hlen => simp at hlen; omega
    | [_, _], hlen => simp at hlen; omega
    | [_, _, _], hlen => simp at hlen; omega
    | [_, _, _, _], hlen => simp at hlen; omega
    | [_, _, _, _, _], hlen => simp at hlen; omega

/-- On a payload of `8 + 6 * k` bytes, whatever they are, the shared body of
`ProcessAircraftIdentification` never takes a slice out of range. -/
theorem identificationBody_no_fault (wake : Int → Int → String) (payload : GoString) (k : Nat)
    (hlen : payload.length = 8 + 6 * k) :
    identificationBody wake payload ≠ .error .sliceBounds := by
  have hl : ((payload.drop 5).drop 3).length = 6 * k := by
    simp only [List.length_drop]; omega
  have hloop := callsignLoop_no_fault k ((payload.drop 5).drop 3) [] hl
  unfold identificationBody
  rw [sliceTo_eq_ok payload 5 (by omega)]
  simp only []
  cases ParseInt (payload.take 5) 2 with
  | error e => simp
  | ok tc =>
    simp only []
    rw [sliceFrom_eq_ok payload 5 (by omega)]
    simp only []
    rw [sliceTo_eq_ok _ 3 (by simp only [List.length_drop]; omega)]
    simp only []
    cases ParseInt ((payload.drop 5).take 3) 2 with
    | error e => simp
    | ok ca =>
      simp only []
      rw [sliceFrom_eq_ok _ 3 (by simp only [List.length_drop]; omega)]
      simp only []
      cases hc : callsignLoop ((payload.drop 5).drop 3) [] with
      | error f =>
        simp only []
        intro hcon
        injection hcon with hcon
        rw [hcon] at hc
        exact hloop hc
      | ok cs => simp

namespace adsbdecoder

/-- A header reader that parses the slice `s[lo:hi]` faults exactly when the
string has fewer than `hi` bytes. -/
theorem reader_fault_iff (s : GoString) (lo hi : Nat) (hlo : lo ≤ hi) (msg : String)
    (g : Int → Except Fault α) (hg : ∀ v, g v ≠ .error .sliceBounds) :
    (match slice s lo hi with
      | .error f => (.error f : Except Fault α)
      | .ok field =>
        match ParseInt field 2 with
        | .error e => .error (.err (.wrap msg e))
        | .ok v => g v) = .error .sliceBounds ↔ s.length < hi := by
  by_cases h : hi ≤ s.length
  · rw [slice_eq_ok s lo hi hlo h]
    simp only []
    cases ParseInt ((s.drop lo).take (hi - lo)) 2 with
    | error e => simp; omega
    | ok v =>
      simp only []
      constructor
      · intro hcon; exact absurd hcon (hg v)
      · intro hcon; omega
  · rw [slice_eq_error s lo hi (by omega)]
    simp only [true_iff]
    omega

/-- C17, counterexample: on strings one character too short each of the five
readers takes a slice out of range; none returns an error value. -/
theorem field_readers_fault_on_short_input :
    ParseDownlinkFormat (ascii "1010") = .error .sliceBounds
      ∧ ParseCapability (ascii "1010101") = .error .sliceBounds
      ∧ ParseICAOAddress (List.replicate 31 48) = .error .sliceBounds
      ∧ ParseTypeCode (List.replicate 36 48) = .error .sliceBounds
      ∧ ProcessAircraftIdentification (List.replicate 87 48) = .error .sliceBounds :=
  ⟨by rfl, by rfl, by rfl, by rfl, by rfl⟩

/-- C17 as amended: for every input string, of any length and with any
characters, each of the five readers takes a slice out of range exactly when
the string has fewer than 5, 8, 32, 37 and 88 characters respectively; on
every string that is long enough it returns a value or an error value. -/
theorem field_readers_fault_iff_short (s : GoString) :
    (ParseDownlinkFormat s = .error .sliceBounds ↔ s.length < 5)
      ∧ (ParseCapability s = .error .sliceBounds ↔ s.length < 8)
      ∧ (ParseICAOAddress s = .error .sliceBounds ↔ s.length < 32)
      ∧ (ParseTypeCode s = .error .sliceBounds ↔ s.length < 37)
      ∧ (ProcessAircraftIdentification s = .error .sliceBounds ↔ s.length < 88) := by
  refine ⟨?_, ?_, ?_, ?_, ?_⟩
  · exact reader_fault_iff s 0 5 (by norm_num) "failed to parse DF" (fun v => .ok v)
      (fun v h => by cases h)
  · exact reader_fault_iff s 5 8 (by norm_num) "failed to parse CA" (fun v => .ok v)
      (fun v h => by cases h)
  · exact reader_fault_iff s 8 32 (by norm_num) "failed to parse ICAO address"
      (fun v => .ok (sprintfX v)) (fun v h => by cases h)
  · exact reader_fault_iff s 32 37 (by norm_num) "failed to parse TC" (fun v => .ok v)
      (fun v h => by cases h)
  · rw [adsbdecoder_identification_eq]
    by_cases h : 88 ≤ s.length
    · rw [slice_eq_ok s 32 88 (by norm_num) h]
      simp only []
      have hl : ((s.drop 32).take (88 - 32)).length = 8 + 6 * 8 := by
        simp only [List.length_take, List.length_drop]; omega
      constructor
      · intro hcon
        exact absurd hcon (identificationBody_no_fault _ _ 8 hl)
      · intro hcon; omega
    · rw [slice_eq_error s 32 88 (by omega)]
      simp only [true_iff]
      omega

end adsbdecoder

/-! ## Claims on the retained bits and on letter case -/

theorem bitField_append_left (x y : GoString) (offset width : Nat)
    (h : offset + width ≤ x.length) :
    bitField (x ++ y) offset width = bitField x offset width := by
  unfold bitField
  rw [List.drop_append_of_le_length (by omega),
    List.take_append_of_le_length (by simp only [List.length_drop]; omega)]

theorem bitField_append_right (x y : GoString) (offset width : Nat) :
    bitField (x ++ y) (x.length + offset) width = bitField y offset width := by
  unfold bitField
  rw [List.drop_append]

set_option maxRecDepth 100000 in
/-- The two halves of `%08b` of a byte are its high and its low hexadecimal digit. -/
theorem sprintf08b_nibbles : ∀ a, a < 16 → ∀ b, b < 16 →
    bitField (sprintf08b (16 * a + b)) 0 4 = a ∧ bitField (sprintf08b (16 * a + b)) 4 4 = b := by
  decide

/-- Every hexadecimal digit of the input is kept as four bits of the output
of the conversion. -/
theorem hexDecodeString_nibbles (s : GoString) (bytes : List Nat)
    (h : hexDecodeString s = .ok bytes) :
    ∀ i c, s[i]? = some c → bitField (bitsOfBytes bytes) (4 * i) 4 = hexDigitValue c := by
  induction s using hexDecodeString.induct generalizing bytes with
  | case1 => intro i c hc; simp at hc
  | case2 p hp => simp [hexDecodeString, hp] at h
  | case3 p x hp => simp [hexDecodeString, hp] at h
  | case4 p q rest hp => simp [hexDecodeString, hp] at h
  | case5 p q rest a ha hb => simp [hexDecodeString, ha, hb] at h
  | case6 p q rest a ha b hb e he ih => simp [hexDecodeString, ha, hb, he] at h
  | case7 p q rest a ha b hb bs he ih =>
    simp only [hexDecodeString, ha, hb, he, Except.ok.injEq] at h
    subst h
    obtain ⟨_, hva, hla⟩ := fromHexChar_eq_some ha
    obtain ⟨_, hvb, hlb⟩ := fromHexChar_eq_some hb
    rw [hexByte_eq a hla b hlb]
    obtain ⟨n1, n2⟩ := sprintf08b_nibbles a hla b hlb
    obtain ⟨_, s2, _⟩ := sprintf08b_spec (16 * a + b) (by omega)
    intro i c hc
    simp only [bitsOfBytes]
    match i, hc with
    | 0, hc =>
      simp only [List.getElem?_cons_zero, Option.some.injEq] at hc
      rw [bitField_append_left _ _ _ _ (by omega), n1, hva, hc]
    | 1, hc =>
      simp only [List.getElem?_cons_succ, List.getElem?_cons_zero, Option.some.injEq] at hc
      rw [bitField_append_left _ _ _ _ (by omega), n2, hvb, hc]
    | j + 2, hc =>
      simp only [List.getElem?_cons_succ] at hc
      have := ih bs he j c hc
      rw [show 4 * (j + 2) = (sprintf08b (16 * a + b)).length + 4 * j from by rw [s2]; ring,
        bitField_append_right, this]

theorem upperHexDigit_hexDigitValue (c : Nat) (h : IsHexDigit c) :
    upperHexDigit (hexDigitValue c) = asciiUpperByte c := by
  unfold IsHexDigit at h
  unfold upperHexDigit hexDigitValue asciiUpperByte
  split_ifs <;> omega

namespace adsbdecoder

/-- C13. The record keeps the input: for every accepted input `s`, `RawBits`
has exactly 112 characters, each `'0'` or `'1'`, and for every position `i`
of `s` (there are 28) the four bits `RawBits[4i..4i+3]`, most significant
first, have the value of the hexadecimal digit `s[i]`; written back as an
upper-case hexadecimal digit they give `s[i]` up to letter case. -/
theorem rawBits_retains_input (s : GoString) (m : ModeSMessage)
    (h : DecodeModeSMessage s = .ok m) :
    m.RawBits.length = 112 ∧ IsBitString m.RawBits ∧ s.length = 28
      ∧ ∀ i c, s[i]? = some c →
          bitField m.RawBits (4 * i) 4 = hexDigitValue c
            ∧ upperHexDigit (bitField m.RawBits (4 * i) 4) = asciiUpperByte c := by
  obtain ⟨bits, hb, hbit, hlen, hm⟩ := decode_ok_inv s m h
  subst hm
  simp only [headerRecord]
  cases hd : hexDecodeString s with
  | error e =>
    unfold HexToBinaryString at hb
    simp only [hd] at hb
    cases hb
  | ok bytes =>
    have hbits : bits = bitsOfBytes bytes := by
      unfold HexToBinaryString at hb
      simp only [hd, foldl_sprintf08b, List.nil_append] at hb
      split_ifs at hb
      injection hb with hb
      exact hb.symm
    obtain ⟨_, b2, _⟩ := hexDecodeString_bits s bytes hd
    have hok := (hexDecodeString_isOk_iff s).1 ⟨bytes, hd⟩
    refine ⟨hlen, hbit, by rw [hbits] at hlen; omega, ?_⟩
    intro i c hc
    have hv := hexDecodeString_nibbles s bytes hd i c hc
    rw [hbits, hv]
    exact ⟨rfl, upperHexDigit_hexDigitValue c (hok.1 c (List.getElem?_mem hc))⟩

/-- Witness for C13: the reference message. -/
theorem rawBits_retains_input_witness :
    DecodeModeSMessage (ascii "8D4840D6202CC371C32CE0576098") = .ok (headerRecord referenceBits)
      ∧ (headerRecord referenceBits).RawBits.length = 112
      ∧ IsBitString (headerRecord referenceBits).RawBits
      ∧ (ascii "8D4840D6202CC371C32CE0576098").length = 28
      ∧ ∀ i c, (ascii "8D4840D6202CC371C32CE0576098")[i]? = some c →
          bitField (headerRecord referenceBits).RawBits (4 * i) 4 = hexDigitValue c
            ∧ upperHexDigit (bitField (headerRecord referenceBits).RawBits (4 * i) 4)
                = asciiUpperByte c :=
  ⟨by rfl, rawBits_retains_input (ascii "8D4840D6202CC371C32CE0576098")
    (headerRecord referenceBits) (by rfl)⟩

end adsbdecoder

theorem fromHexChar_asciiUpperByte (c : Nat) :
    fromHexChar (asciiUpperByte c) = fromHexChar c := by
  unfold asciiUpperByte fromHexChar
  split_ifs <;> first | omega | congr 1

theorem fromHexChar_asciiLowerByte (c : Nat) :
    fromHexChar (asciiLowerByte c) = fromHexChar c := by
  unfold asciiLowerByte fromHexChar
  split_ifs <;> first | omega | congr 1

/-- A change of the bytes that keeps the value of every hexadecimal digit and
the invalidity of every other byte keeps the bytes that `hex.DecodeString`
returns. -/
theorem hexDecodeString_map (f : Nat → Nat) (hf : ∀ c, fromHexChar (f c) = fromHexChar c)
    (s : GoString) (bytes : List Nat) :
    hexDecodeString (s.map f) = .ok bytes ↔ hexDecodeString s = .ok bytes := by
  induction s using hexDecodeString.induct generalizing bytes with
  | case1 => simp [hexDecodeString]
  | case2 p hp => simp [hexDecodeString, hf, hp]
  | case3 p x hp => simp [hexDecodeString, hf, hp]
  | case4 p q rest hp => simp [hexDecodeString, hf, hp]
  | case5 p q rest a ha hb => simp [hexDecodeString, hf, ha, hb]
  | case6 p q rest a ha b hb e he ih =>
    simp only [List.map_cons, hexDecodeString, hf, ha, hb, he]
    cases hm : hexDecodeString (rest.map f) with
    | error e2 => simp
    | ok bs =>
      have := (ih bs).1 hm
      rw [he] at this
      cases this
  | case7 p q rest a ha b hb bs he ih =>
    simp only [List.map_cons, hexDecodeString, hf, ha, hb, he]
    rw [(ih bs).2 he]

namespace adsbdecoder

theorem hexToBinaryString_map (f : Nat → Nat) (hf : ∀ c, fromHexChar (f c) = fromHexChar c)
    (s bits : GoString) :
    HexToBinaryString (s.map f) = .ok bits ↔ HexToBinaryString s = .ok bits := by
  have key : ∀ (x y : GoString), (∀ bytes, hexDecodeString x = .ok bytes →
      hexDecodeString y = .ok bytes) → HexToBinaryString x = .ok bits →
      HexToBinaryString y = .ok bits := by
    intro x y hxy hx
    cases hd : hexDecodeString x with
    | error e =>
      unfold HexToBinaryString at hx
      simp only [hd] at hx
      cases hx
    | ok bytes =>
      have hy := hxy bytes hd
      unfold HexToBinaryString at hx ⊢
      simp only [hd] at hx
      simp only [hy]
      exact hx
  exact ⟨key _ _ (fun bytes hb => (hexDecodeString_map f hf s bytes).1 hb),
    key _ _ (fun bytes hb => (hexDecodeString_map f hf s bytes).2 hb)⟩

/-- The outcome of `DecodeModeSMessage` is a record or an error value, and a
record exactly when `HexToBinaryString` returns the bits of that record. -/
theorem decode_eq_ok_iff (s : GoString) (m : ModeSMessage) :
    DecodeModeSMessage s = .ok m
      ↔ ∃ bits, HexToBinaryString s = .ok bits ∧ m = headerRecord bits := by
  constructor
  · intro h
    obtain ⟨bits, hb, _, _, hm⟩ := decode_ok_inv s m h
    exact ⟨bits, hb, hm⟩
  · rintro ⟨bits, hb, hm⟩
    by_cases hv : s.length = 28 ∧ ∀ c ∈ s, IsHexDigit c
    · obtain ⟨bits2, hb2, hbit, hblen, _⟩ := hexToBinaryString_valid s hv.1 hv.2
      rw [hb] at hb2
      injection hb2 with hb2
      subst hb2
      rw [hm]
      exact decode_of_bits s bits hb hbit hblen
    · obtain ⟨e, he⟩ := hexToBinaryString_invalid s hv
      rw [hb] at he
      cases he

theorem decode_map (f : Nat → Nat) (hf : ∀ c, fromHexChar (f c) = fromHexChar c)
    (s : GoString) (m : ModeSMessage) :
    DecodeModeSMessage (s.map f) = .ok m ↔ DecodeModeSMessage s = .ok m := by
  rw [decode_eq_ok_iff, decode_eq_ok_iff]
  constructor
  · rintro ⟨bits, hb, hm⟩
    exact ⟨bits, (hexToBinaryString_map f hf s bits).1 hb, hm⟩
  · rintro ⟨bits, hb, hm⟩
    exact ⟨bits, (hexToBinaryString_map f hf s bits).2 hb, hm⟩

theorem decode_ok_or_error (s : GoString) :
    (∃ m, DecodeModeSMessage s = .ok m) ∨ (∃ e, DecodeModeSMessage s = .error (.err e)) := by
  by_cases hv : s.length = 28 ∧ ∀ c ∈ s, IsHexDigit c
  · obtain ⟨bits, hb, hbit, hblen, _⟩ := hexToBinaryString_valid s hv.1 hv.2
    exact Or.inl ⟨_, decode_of_bits s bits hb hbit hblen⟩
  · obtain ⟨e, he⟩ := hexToBinaryString_invalid s hv
    refine Or.inr ⟨.wrap "failed to convert hex to binary" e, ?_⟩
    unfold DecodeModeSMessage
    simp only [he]

/-- C14. Letter case of the input does not matter: for every string `s`, if
`s` is a string of 28 hexadecimal digits then `DecodeModeSMessage` returns one
and the same record (so equal DF, CA, ICAO, TC and RawBits) for the
upper-cased `s`, the lower-cased `s` and `s` itself; and if `s` is not, both
the call on the upper-cased and the call on the lower-cased string return an
error value. -/
theorem decode_case_insensitive (s : GoString) :
    ((s.length = 28 ∧ ∀ c ∈ s, IsHexDigit c) →
        ∃ m, DecodeModeSMessage (asciiUpper s) = .ok m
          ∧ DecodeModeSMessage (asciiLower s) = .ok m ∧ DecodeModeSMessage s = .ok m)
      ∧ (¬ (s.length = 28 ∧ ∀ c ∈ s, IsHexDigit c) →
          (∃ e, DecodeModeSMessage (asciiUpper s) = .error (.err e))
            ∧ (∃ e, DecodeModeSMessage (asciiLower s) = .error (.err e))) := by
  have hu := decode_map asciiUpperByte fromHexChar_asciiUpperByte s
  have hl := decode_map asciiLowerByte fromHexChar_asciiLowerByte s
  constructor
  · intro hv
    obtain ⟨bits, hb, hbit, hblen, _⟩ := hexToBinaryString_valid s hv.1 hv.2
    have hd := decode_of_bits s bits hb hbit hblen
    exact ⟨_, (hu _).2 hd, (hl _).2 hd, hd⟩
  · intro hv
    have hno : ∀ m, DecodeModeSMessage s ≠ .ok m := by
      intro m hm
      obtain ⟨bits, hb, _, _, _⟩ := decode_ok_inv s m hm
      obtain ⟨e, he⟩ := hexToBinaryString_invalid s hv
      rw [hb] at he
      cases he
    constructor
    · rcases decode_ok_or_error (asciiUpper s) with ⟨m, hm⟩ | he
      · exact absurd ((hu m).1 hm) (hno m)
      · exact he
    · rcases decode_ok_or_error (asciiLower s) with ⟨m, hm⟩ | he
      · exact absurd ((hl m).1 hm) (hno m)
      · exact he

/-- Witness for C14: the reference message with its letters in mixed case. -/
theorem decode_case_insensitive_witness :
    ((ascii "8d4840D6202cC371c32ce0576098").length = 28
        ∧ ∀ c ∈ ascii "8d4840D6202cC371c32ce0576098", IsHexDigit c)
      ∧ asciiUpper (ascii "8d4840D6202cC371c32ce0576098") = ascii "8D4840D6202CC371C32CE0576098"
      ∧ asciiLower (ascii "8d4840D6202cC371c32ce0576098") = ascii "8d4840d6202cc371c32ce0576098"
      ∧ ∃ m, DecodeModeSMessage (asciiUpper (ascii "8d4840D6202cC371c32ce0576098")) = .ok m
          ∧ DecodeModeSMessage (asciiLower (ascii "8d4840D6202cC371c32ce0576098")) = .ok m
          ∧ DecodeModeSMessage (ascii "8d4840D6202cC371c32ce0576098") = .ok m :=
  ⟨by decide, by decide, by decide,
    (decode_case_insensitive (ascii "8d4840D6202cC371c32ce0576098")).1 (by decide)⟩

end adsbdecoder

/-! ## Claims on the zone number `NL` -/

namespace adsbdecoder

/-- A latitude that is neither zero nor of absolute value 87 or more passes
the three cases of the `switch`: the result is the value of the formula. -/
theorem zoneNumber_of_small (formula : Float64 → Int) (q : ℚ) (h0 : q ≠ 0) (h87 : |q| < 87) :
    calculateLongtitudeZoneNumber formula (.finite q) = formula (.finite q) := by
  simp only [calculateLongtitudeZoneNumber, Float64.eq, Float64.abs, Float64.gt]
  rw [if_neg (by simpa using h0), if_neg (by simpa using ne_of_lt h87),
    if_neg (by simpa using le_of_lt h87)]

/-- A latitude of absolute value above 87, also an infinite one, is answered
by the third case. -/
theorem zoneNumber_of_abs_gt (formula : Float64 → Int) (x : Float64)
    (hx : Float64.gt (Float64.abs x) (.finite 87) = true) :
    calculateLongtitudeZoneNumber formula x = 1 := by
  cases x with
  | finite q =>
    simp only [Float64.abs, Float64.gt, decide_eq_true_eq] at hx
    have h0 : q ≠ 0 := by
      intro h; rw [h, abs_zero] at hx; norm_num at hx
    simp only [calculateLongtitudeZoneNumber, Float64.eq, Float64.abs, Float64.gt]
    rw [if_neg (by simpa using h0), if_neg (by simpa using ne_of_gt hx),
      if_pos (by simpa using hx)]
  | posInf => rfl
  | negInf => rfl
  | nan => simp [Float64.abs, Float64.gt] at hx

/-- C16. Special values of the zone number: `NL(0) = 59`,
`NL(87) = NL(-87) = 2`, and `NL(x) = 1` for every `x` with `|x| > 87`, in
particular for 88; whatever the formula of the last lines computes. -/
theorem zoneNumber_special_values (formula : Float64 → Int) :
    calculateLongtitudeZoneNumber formula (.finite 0) = 59
      ∧ calculateLongtitudeZoneNumber formula (.finite 87) = 2
      ∧ calculateLongtitudeZoneNumber formula (.finite (-87)) = 2
      ∧ calculateLongtitudeZoneNumber formula (.finite 88) = 1
      ∧ ∀ x : Float64, Float64.gt (Float64.abs x) (.finite 87) = true →
          calculateLongtitudeZoneNumber formula x = 1 := by
  refine ⟨?_, ?_, ?_, ?_, zoneNumber_of_abs_gt formula⟩
  · simp [calculateLongtitudeZoneNumber, Float64.eq]
  · simp [calculateLongtitudeZoneNumber, Float64.eq, Float64.abs]
  · simp [calculateLongtitudeZoneNumber, Float64.eq, Float64.abs]
  · exact zoneNumber_of_abs_gt formula (.finite 88) (by simp [Float64.abs, Float64.gt]; norm_num)

/-- Witness for C16: the latitude -89.5 and the negative infinity, with a
formula that would answer 60. -/
theorem zoneNumber_special_values_witness :
    Float64.gt (Float64.abs (.finite (-179 / 2))) (.finite 87) = true
      ∧ calculateLongtitudeZoneNumber (fun _ => 60) (.finite (-179 / 2)) = 1
      ∧ Float64.gt (Float64.abs .negInf) (.finite 87) = true
      ∧ calculateLongtitudeZoneNumber (fun _ => 60) .negInf = 1 :=
  ⟨by simp only [Float64.abs, Float64.gt, decide_eq_true_eq]
      rw [abs_of_neg (by norm_num)]; norm_num,
    (zoneNumber_special_values (fun _ => 60)).2.2.2.2 (.finite (-179 / 2))
      (by simp only [Float64.abs, Float64.gt, decide_eq_true_eq]
          rw [abs_of_neg (by norm_num)]; norm_num),
    by rfl,
    (zoneNumber_special_values (fun _ => 60)).2.2.2.2 .negInf (by rfl)⟩

/-- C15, the code at the failing input: latitude 0 is answered by the first
case with 59, while a non-zero latitude of absolute value below 87, such as
1e-6, passes all three cases, so that the result there is the value of the
`float64` formula; nothing in the function keeps that value at or below 59. -/
theorem zoneNumber_guards_miss_small_latitudes (formula : Float64 → Int) (q : ℚ)
    (h0 : q ≠ 0) (h87 : |q| < 87) :
    calculateLongtitudeZoneNumber formula (.finite 0) = 59
      ∧ calculateLongtitudeZoneNumber formula (.finite q) = formula (.finite q) :=
  ⟨(zoneNumber_special_values formula).1, zoneNumber_of_small formula q h0 h87⟩

/-- Witness for C15: the `float64` value of the literal 1e-6, which is
4722366482869645 / 2^72, with a formula that answers 60 there. -/
theorem zoneNumber_guards_miss_small_latitudes_witness :
    (4722366482869645 / 2 ^ 72 : ℚ) ≠ 0 ∧ |(4722366482869645 / 2 ^ 72 : ℚ)| < 87
      ∧ calculateLongtitudeZoneNumber (fun _ => 60) (.finite 0) = 59
      ∧ calculateLongtitudeZoneNumber (fun _ => 60) (.finite (4722366482869645 / 2 ^ 72))
          = (fun _ => 60) (Float64.finite (4722366482869645 / 2 ^ 72)) :=
  ⟨by norm_num, by rw [abs_of_pos (by norm_num)]; norm_num,
    zoneNumber_guards_miss_small_latitudes (fun _ => 60) (4722366482869645 / 2 ^ 72)
      (by norm_num) (by rw [abs_of_pos (by norm_num)]; norm_num)⟩

end adsbdecoder

/-- The table of `deocder.go` has an entry for (1, 0) that is never used: the
case `tc == 1` answers "Reserved" before the table is read. -/
theorem deocder_table_entry_one_zero_unused :
    mapIndex "" (mapIndex [] deocder.wakeVortexCategorylookupTable 1) 0
        = "No category information"
      ∧ deocder.getWakeTurbulenceCategory 1 0 = "Reserved" :=
  ⟨by decide, by decide⟩

end ADSB
